import Mathlib

/-!
Verification of the llmux request-lifecycle engine against its design
specification.  Each component used by the claims is embedded shallowly:
JavaScript objects become association lists preserving insertion order,
JavaScript truthiness is modelled explicitly at every branch the source
relies on, machine integers are Nat, and fallible code returns Except.
-/

set_option maxRecDepth 4000

namespace LLMux

/-! ## Generic helpers: association lists with JS object-write semantics -/

/-- JS object property write: if the key is present the value is replaced in
place (insertion order kept), otherwise the pair is appended at the end. -/
def assocSet {α : Type} (kvs : List (String × α)) (k : String) (v : α) :
    List (String × α) :=
  if kvs.any (fun kv => kv.1 = k) then
    kvs.map (fun kv => if kv.1 = k then (k, v) else kv)
  else kvs ++ [(k, v)]

/-- JS object property read: value of the first entry with the given key. -/
def assocGet {α : Type} (kvs : List (String × α)) (k : String) : Option α :=
  (kvs.find? (fun kv => kv.1 = k)).map (fun kv => kv.2)

/-- Checks whether the first list is an initial segment of the second. -/
def leadsWith {α : Type} [DecidableEq α] : List α → List α → Bool
  | [], _ => true
  | _ :: _, [] => false
  | p :: ps, x :: xs => p = x && leadsWith ps xs

/-- Checks whether the first list occurs contiguously inside the second
(the JS String.prototype.includes test, on character lists). -/
def containsSub {α : Type} [DecidableEq α] (sub : List α) : List α → Bool
  | [] => leadsWith sub []
  | x :: xs => leadsWith sub (x :: xs) || containsSub sub xs

/-- JS s.includes(sub) on strings. -/
def strContains (s sub : String) : Bool := containsSub sub.toList s.toList

/-! ## Backend selector (src/config/index.js)

Embeds Config.backend_configs, Config.getBackendConfig, Config.selectBackend,
Config._hasImageContent, Config._hasOpenAIThinking and Config._matchPattern.
-/

/-- One compiled unit of a model_match pattern.  The source turns the pattern
into a regex replacing every asterisk with dot-star and every question mark
with a dot, so an asterisk matches any substring while a question mark, and a
literal dot already present in the pattern, match any single character; all
remaining characters are matched literally under the i flag. -/
inductive GlobTok where
  | star : GlobTok
  | anyc : GlobTok
  | lit : Char → GlobTok
deriving DecidableEq

/-- Compile a pattern string to glob tokens, mirroring the regex the source
builds in Config._matchPattern. -/
def compileGlob (p : List Char) : List GlobTok :=
  p.map (fun c => if c = '*' then .star else if c = '?' || c = '.' then .anyc else .lit c)

/-- Anchored matching of a compiled pattern against a value, case-insensitive
on literals (the i regex flag). -/
def globMatch : List GlobTok → List Char → Bool
  | [], [] => true
  | [], _ :: _ => false
  | .star :: ps, [] => globMatch ps []
  | .star :: ps, c :: s => globMatch ps (c :: s) || globMatch (.star :: ps) s
  | .anyc :: _, [] => false
  | .anyc :: ps, _ :: s => globMatch ps s
  | .lit _ :: _, [] => false
  | .lit c :: ps, d :: s => (c.toLower = d.toLower) && globMatch ps s
termination_by ts s => (ts.length, s.length)

/-- Config._matchPattern: an asterisk pattern matches anything; an empty
pattern or empty value never matches; otherwise anchored glob matching. -/
def matchPattern (pattern value : String) : Bool :=
  if pattern = "*" then true
  else if pattern = "" || value = "" then false
  else globMatch (compileGlob pattern.toList) value.toList

/-- A content block of a request message as the selector inspects it: only
its type tag matters. -/
structure SBlock where
  btype : String
deriving DecidableEq

/-- Message content: either a plain string or an array of blocks. -/
inductive SContent where
  | str : String → SContent
  | blocks : List SBlock → SContent
deriving DecidableEq

/-- A request message as the selector inspects it. -/
structure SMsg where
  content : Option SContent
deriving DecidableEq

/-- The request fields read by Config.selectBackend.  thinkingEnabled models
request.thinking.type being the string enabled; reasoningMode models the
boolean field reasoning_mode being true. -/
structure SRequest where
  model : Option String
  messages : Option (List SMsg)
  thinkingEnabled : Bool
  reasoningMode : Bool
deriving DecidableEq

/-- Config._hasImageContent: some message has array content with a block of
type image or image_url. -/
def hasImageContent (r : SRequest) : Bool :=
  match r.messages with
  | none => false
  | some msgs =>
      msgs.any (fun m =>
        match m.content with
        | some (.blocks bs) => bs.any (fun b => b.btype = "image" || b.btype = "image_url")
        | _ => false)

/-- Config._hasOpenAIThinking: model mentions o1 or o3, or thinking is the
string enabled, or reasoning_mode is true. -/
def hasOpenAIThinking (r : SRequest) : Bool :=
  (match r.model with
   | some m => strContains m "o1" || strContains m "o3"
   | none => false)
  || r.thinkingEnabled || r.reasoningMode

/-- The combined thinking requirement computed at the top of selectBackend. -/
def needsThinking (r : SRequest) : Bool :=
  r.thinkingEnabled || hasOpenAIThinking r

/-- One catalog entry as parsed from a backend table.  vision and thinking
are stored already defaulted to false when absent, as the Config constructor
does; context and model_match keep their absence observable because the
selector branches on it. -/
structure Backend where
  model : String
  context : Option Nat
  vision : Bool
  thinking : Bool
  modelMatch : Option (List String)
deriving DecidableEq

/-- The per-model record the Config constructor stores in backend_configs. -/
structure BackendCfg where
  context : Option Nat
  vision : Bool
  thinking : Bool
  modelMatch : Option (List String)
deriving DecidableEq

/-- The record stored for one backend table entry. -/
def Backend.toCfg (b : Backend) : BackendCfg :=
  ⟨b.context, b.vision, b.thinking, b.modelMatch⟩

/-- Config constructor: backend_configs is a JS object keyed by model string,
written in catalog order, so a later entry with the same model string
overwrites an earlier one. -/
def backendConfigs (backends : List Backend) : List (String × BackendCfg) :=
  backends.foldl (fun acc b => assocSet acc b.model b.toCfg) []

/-- The default record getBackendConfig falls back to for unknown models. -/
def defaultBackendCfg : BackendCfg :=
  ⟨some 128000, false, false, none⟩

/-- Config.getBackendConfig. -/
def getBackendConfig (backends : List Backend) (model : String) : BackendCfg :=
  match assocGet (backendConfigs backends) model with
  | some c => c
  | none => defaultBackendCfg

/-- The context gate inside selectBackend.  The source skips a backend only
when config.context is truthy (present and nonzero) and the estimate exceeds
it; a missing context performs no context check at all. -/
def contextAdmits (cfg : BackendCfg) (estimatedTokens : Nat) : Bool :=
  match cfg.context with
  | some c => !(c ≠ 0 && estimatedTokens > c)
  | none => true

/-- The model_match gate inside selectBackend: applied only when the config
carries a non-empty pattern list; the requested model falls back to the empty
string when absent. -/
def modelMatchOk (cfg : BackendCfg) (r : SRequest) : Bool :=
  match cfg.modelMatch with
  | some pats =>
      if pats.length > 0 then
        pats.any (fun p => matchPattern p (match r.model with | some m => m | none => ""))
      else true
  | none => true

/-- Config.selectBackend: filter out failed backends, then linear scan; each
candidate is gated through the config registered for its model string. -/
def selectBackend (backends : List Backend) (r : SRequest) (estimatedTokens : Nat)
    (failedBackends : List String) : Option String :=
  let needsVision := hasImageContent r
  let needsThink := needsThinking r
  let available := backends.filter (fun b => !(failedBackends.contains b.model))
  (available.find? (fun b =>
    let cfg := getBackendConfig backends b.model
    contextAdmits cfg estimatedTokens
      && (!needsVision || cfg.vision)
      && (!needsThink || cfg.thinking)
      && modelMatchOk cfg r)).map (fun b => b.model)

/-- The qualification predicate exactly as the selection claim words it,
evaluated against the descriptor's own fields: not excluded, context admits
the estimate, vision when needed, thinking when needed, and some pattern
matches when the descriptor carries a non-empty pattern list. -/
def claimQualifies (r : SRequest) (estimatedTokens : Nat) (failedBackends : List String)
    (b : Backend) : Bool :=
  !(failedBackends.contains b.model)
    && contextAdmits b.toCfg estimatedTokens
    && (!(hasImageContent r) || b.vision)
    && (!(needsThinking r) || b.thinking)
    && modelMatchOk b.toCfg r

/-- C1 counterexample input: two descriptors sharing one model string; the
selector gates the first through the config registered last for that string. -/
def c1DupCatalog : List Backend :=
  [⟨"a:b", some 100, false, false, none⟩, ⟨"a:b", some 50, false, false, none⟩]

/-- A request with no messages and no thinking markers. -/
def plainRequest : SRequest := ⟨none, none, false, false⟩

/-- C2 counterexample input: a one-descriptor catalog whose descriptor has no
context field. -/
def c2NoCtxCatalog : List Backend := [⟨"a:b", none, false, false, none⟩]

/-! ## Failover orchestrator (OpenAIClient._try_failover_request and
OpenAIClient._try_failover_stream in the provider client)

Both functions have the same control structure; they differ only in the
wording of their 503 messages, modelled by the streamMode flag.  Upstream
outcomes are abstracted by a function from the global attempt index and the
attempted backend to an Except value: an ok value is a completed response
(respectively a fully consumed stream), an error value carries the error
message string the catch block inspects.  Wall-clock time is the run's start
time in seconds; the model keeps it constant across the run. -/

/-- The lowercasing the catch block applies to the error text. -/
def lowerChars (s : String) : List Char := s.toList.map Char.toLower

/-- The day-limit test of the catch block: the lowercased message contains
one of the two day-limit markers. -/
def isDayLimitMsg (msg : String) : Bool :=
  containsSub ("tokens per day limit exceeded".toList) (lowerChars msg)
    || containsSub ("day limit exceeded".toList) (lowerChars msg)

/-- Result of one pass over the attempt list (the inner for loop): a success
with the backend that served it, a break caused by a primary day-limit error,
or exhaustion of the list.  Each carries the updated attempt counter and the
list of backends attempted during the pass, in order. -/
inductive CycleRes (R : Type) where
  | success : String → R → Nat → List String → CycleRes R
  | dayLimit : Nat → List String → CycleRes R
  | exhausted : Nat → List String → CycleRes R

/-- Backends attempted during the pass. -/
def CycleRes.trace {R : Type} : CycleRes R → List String
  | .success _ _ _ t => t
  | .dayLimit _ t => t
  | .exhausted _ t => t

/-- The inner for loop of a failover cycle: try each backend in order; on
success return immediately; on an error that is a day-limit error on the
primary backend, set the cooldown and break; on any other error continue. -/
def runList {R : Type} (A : Nat → String → Except String R) (primary : String) :
    List String → Nat → CycleRes R
  | [], k => .exhausted k []
  | b :: bs, k =>
      match A k b with
      | .ok r => .success b r (k + 1) [b]
      | .error msg =>
          if b = primary && isDayLimitMsg msg then .dayLimit (k + 1) [b]
          else
            match runList A primary bs (k + 1) with
            | .success b' r k' t => .success b' r k' (b :: t)
            | .dayLimit k' t => .dayLimit k' (b :: t)
            | .exhausted k' t => .exhausted k' (b :: t)

/-- What a whole orchestrator run produced: the upstream attempts in order,
the backoff sleeps inserted between cycles in order, the outcome (a response
paired with the backend that served it, or an HTTP error as status and
message), and the final cooldown timestamp. -/
structure RunResult (R : Type) where
  attempts : List String
  sleeps : List Nat
  outcome : Except (Nat × String) (R × String)
  cooldown : Nat

/-- The backoff schedule constant. -/
def backoffSeq : List Nat := [2, 4, 8, 15, 15, 30, 30, 60]

/-- backoff_seq indexed at min(cycle, length - 1). -/
def backoffDelay (cycle : Nat) : Nat := backoffSeq.getD (min cycle 7) 0

/-- The 503 message of the throw inside the while loop. -/
def failCyclesMsg (streamMode : Bool) : String :=
  if streamMode then "All backends failed for streaming after 10 retry cycles"
  else "All backends failed after 10 retry cycles"

/-- The 503 message of the unreachable throw after the while loop. -/
def failFinalMsg (streamMode : Bool) : String :=
  if streamMode then "All backends failed (stream)" else "All backends failed"

/-- The while loop of the orchestrator.  fuel counts the cycles still allowed
(max_cycles minus the cycle counter, so the loop enters with fuel 10); the
cycle counter of the source is recovered as 10 - fuel when indexing the
backoff schedule.  A day-limit break sets the cooldown to now + 300 and
replaces the attempt list by the failover list for all later cycles. -/
def runCycles {R : Type} (A : Nat → String → Except String R) (primary : String)
    (failover : List String) (now : Nat) (streamMode : Bool) :
    List String → Nat → Nat → Nat → RunResult R
  | _, cd, _, 0 => ⟨[], [], .error (503, failFinalMsg streamMode), cd⟩
  | bs, cd, k, fuel + 1 =>
      match runList A primary bs k with
      | .success b r _ t => ⟨t, [], .ok (r, b), cd⟩
      | .dayLimit k' t =>
          if fuel = 0 then ⟨t, [], .error (503, failCyclesMsg streamMode), now + 300⟩
          else
            let rest := runCycles A primary failover now streamMode failover (now + 300) k' fuel
            ⟨t ++ rest.attempts, backoffDelay (10 - fuel) :: rest.sleeps,
              rest.outcome, rest.cooldown⟩
      | .exhausted k' t =>
          if fuel = 0 then ⟨t, [], .error (503, failCyclesMsg streamMode), cd⟩
          else
            let rest := runCycles A primary failover now streamMode bs cd k' fuel
            ⟨t ++ rest.attempts, backoffDelay (10 - fuel) :: rest.sleeps,
              rest.outcome, rest.cooldown⟩

/-- A whole orchestrator run: when the run starts inside the cooldown window
the primary is dropped from the attempt list, then up to 10 cycles run. -/
def tryFailoverRun {R : Type} (A : Nat → String → Except String R)
    (primary : String) (failover : List String) (now cd0 : Nat)
    (streamMode : Bool) : RunResult R :=
  let bs := if now < cd0 then failover else primary :: failover
  runCycles A primary failover now streamMode bs cd0 0 10

/-- The backoff sleeps the claim asserts: the k-th sleep (0-based) reads the
schedule at min(k, 7); nine sleeps separate ten cycles. -/
def claimBackoffSleeps : List Nat := (List.range 9).map backoffDelay

/-- An upstream behaviour for the C4 counterexample: every attempt at every
backend fails with a generic error. -/
def allBoom : Nat → String → Except String Unit := fun _ _ => .error "boom"

/-! ## SSE streaming parser (OpenAIClient._create_stream)

The reader loop appends each decoded chunk to a buffer, repeatedly splits the
buffer at the first blank line, and within each complete frame forwards only
the lines beginning with the data prefix, each re-terminated with one blank
line; at end of stream any non-whitespace residue is flushed under the same
rule.  Text is modelled as character lists; the text decoder in stream mode
guarantees byte chunking coincides with character chunking. -/

/-- buf.indexOf of the two-newline separator: splits the buffer at its first
occurrence into the frame before it and the remainder after it. -/
def splitFirstNN : List Char → Option (List Char × List Char)
  | [] => none
  | [_] => none
  | c :: d :: rest =>
      if c = '\n' ∧ d = '\n' then some ([], rest)
      else
        match splitFirstNN (d :: rest) with
        | some (f, r) => some (c :: f, r)
        | none => none

/-- JS String.prototype.split at newline characters. -/
def splitLinesChars : List Char → List (List Char)
  | [] => [[]]
  | c :: rest =>
      if c = '\n' then [] :: splitLinesChars rest
      else
        match splitLinesChars rest with
        | [] => [[c]]
        | l :: ls => (c :: l) :: ls

/-- The five characters of the SSE data marker. -/
def dataMarker : List Char := ['d', 'a', 't', 'a', ':']

/-- ln.startsWith of the data marker. -/
def startsWithData (l : List Char) : Bool :=
  leadsWith dataMarker l

/-- Processing of one complete frame (and of the residual buffer at end of
stream, whose code is identical): skip the frame when it trims to nothing,
otherwise split it into lines, drop empty lines, and forward every line
beginning with the data prefix re-terminated with one blank line. -/
def frameOut (chunk : List Char) : List (List Char) :=
  if chunk.all Char.isWhitespace then []
  else
    (((splitLinesChars chunk).filter (fun l => !l.isEmpty)).filter startsWithData).map
      (fun l => l ++ ['\n', '\n'])

/-- The inner while loop: extract and process every complete frame of the
buffer, returning the forwarded output and the remaining buffer. -/
def drain (buf : List Char) : List (List Char) × List Char :=
  match h : splitFirstNN buf with
  | some (f, r) =>
      let rest := drain r
      (frameOut f ++ rest.1, rest.2)
  | none => ([], buf)
termination_by buf.length
decreasing_by
  have key : ∀ (s f r : List Char), splitFirstNN s = some (f, r) →
      s = f ++ '\n' :: '\n' :: r := by
    intro s
    induction s with
    | nil => intro f r hfr; simp [splitFirstNN] at hfr
    | cons c s ih =>
        intro f r hfr
        cases s with
        | nil => simp [splitFirstNN] at hfr
        | cons d s' =>
            simp only [splitFirstNN] at hfr
            by_cases hnn : c = '\n' ∧ d = '\n'
            · rw [if_pos hnn] at hfr
              cases hfr
              simp [hnn.1, hnn.2]
            · rw [if_neg hnn] at hfr
              cases hsub : splitFirstNN (d :: s') with
              | none => rw [hsub] at hfr; cases hfr
              | some p =>
                  rw [hsub] at hfr
                  cases p with
                  | mk f' r' =>
                      simp only [Option.some.injEq, Prod.mk.injEq] at hfr
                      rcases hfr with ⟨hf, hr⟩
                      subst hf
                      subst hr
                      simpa using ih f' r' hsub
  have hs := key _ _ _ h
  subst hs
  simp [List.length_append]
  omega

/-- The SSE output of the reader loop over a list of decoded chunks, starting
from a buffer: drain complete frames after each chunk, flush the residue at
end of stream. -/
def streamChunks : List Char → List (List Char) → List (List Char)
  | buf, [] => frameOut buf
  | buf, c :: cs =>
      let d := drain (buf ++ c)
      d.1 ++ streamChunks d.2 cs

/-- The output of _create_stream for a given sequence of read chunks. -/
def createStreamOutput (chunks : List (List Char)) : List (List Char) :=
  streamChunks [] chunks

/-- The framing the claim asserts over the whole input: its data-prefixed
lines, in input order, each re-terminated with one blank line, and nothing
else. -/
def sseSpec (input : List Char) : List (List Char) :=
  ((splitLinesChars input).filter startsWithData).map (fun l => l ++ ['\n', '\n'])

/-! ## Payload shaper (utils/key_delete.js, utils/key_add.js,
utils/key_rename.js and the shaping steps of the chat completions handler)

JSON-like values; objects are association lists in insertion order, as JS
objects enumerate string keys.  The JSON round-trip deep copy the apply
wrappers perform is the identity on pure values. -/

/-- A JSON value. -/
inductive JVal where
  | null : JVal
  | bool : Bool → JVal
  | num : ℚ → JVal
  | str : String → JVal
  | arr : List JVal → JVal
  | obj : List (String × JVal) → JVal

/-- The JS test typeof value is object and value is not null: true exactly
for arrays and objects. -/
def JVal.isComposite : JVal → Bool
  | .arr _ => true
  | .obj _ => true
  | _ => false

/-- Entries of an object value; empty for anything else. -/
def JVal.entries : JVal → List (String × JVal)
  | .obj kvs => kvs
  | _ => []

/-- deleteKeys: drop every entry whose key is listed, recurse into the kept
values and into array elements; scalars unchanged. -/
def deleteKeys (ks : List String) : JVal → JVal
  | .obj kvs =>
      .obj ((kvs.filter (fun kv => !(ks.contains kv.1))).attach.map
        (fun x => (x.1.1, deleteKeys ks x.1.2)))
  | .arr xs => .arr (xs.attach.map (fun x => deleteKeys ks x.1))
  | v => v
termination_by v => sizeOf v
decreasing_by
  · have h1 : x.1 ∈ kvs.filter (fun kv => !(ks.contains kv.1)) := x.2
    have h2 : x.1 ∈ kvs := List.mem_of_mem_filter h1
    have h3 : sizeOf x.1 < sizeOf kvs := List.sizeOf_lt_of_mem h2
    have h4 : sizeOf x.1.2 < sizeOf x.1 := by
      cases x.1 with
      | mk a b => simp
    simp only [JVal.obj.sizeOf_spec]
    omega
  · have h3 : sizeOf x.1 < sizeOf xs := List.sizeOf_lt_of_mem x.2
    simp only [JVal.arr.sizeOf_spec]
    omega

/-- addKeys: on every object node write the additions first, then the
original entries (overwriting a same-keyed addition in place), recursing into
composite original values; array elements are recursed into; scalars
unchanged. -/
def addKeys (adds : List (String × JVal)) : JVal → JVal
  | .obj kvs =>
      let base := adds.foldl (fun acc kv => assocSet acc kv.1 kv.2) []
      .obj ((kvs.attach.map (fun x =>
          (x.1.1, if x.1.2.isComposite then addKeys adds x.1.2 else x.1.2))).foldl
        (fun acc kv => assocSet acc kv.1 kv.2) base)
  | .arr xs => .arr (xs.attach.map (fun x => addKeys adds x.1))
  | v => v
termination_by v => sizeOf v
decreasing_by
  · have h3 : sizeOf x.1 < sizeOf kvs := List.sizeOf_lt_of_mem x.2
    have h4 : sizeOf x.1.2 < sizeOf x.1 := by
      cases x.1 with
      | mk a b => simp
    simp only [JVal.obj.sizeOf_spec]
    omega
  · have h3 : sizeOf x.1 < sizeOf xs := List.sizeOf_lt_of_mem x.2
    simp only [JVal.arr.sizeOf_spec]
    omega

/-- keyMap lookup with the JS falsy fallback: a missing or empty replacement
keeps the original key. -/
def renameApply (keyMap : List (String × String)) (k : String) : String :=
  match assocGet keyMap k with
  | some nk => if nk = "" then k else nk
  | none => k

/-- renameKeys: rebuild every object node writing each entry under its
renamed key, values renamed recursively; array elements recursed into;
scalars unchanged. -/
def renameKeys (keyMap : List (String × String)) : JVal → JVal
  | .obj kvs =>
      .obj ((kvs.attach.map (fun x =>
          (renameApply keyMap x.1.1, renameKeys keyMap x.1.2))).foldl
        (fun acc kv => assocSet acc kv.1 kv.2) [])
  | .arr xs => .arr (xs.attach.map (fun x => renameKeys keyMap x.1))
  | v => v
termination_by v => sizeOf v
decreasing_by
  · have h3 : sizeOf x.1 < sizeOf kvs := List.sizeOf_lt_of_mem x.2
    have h4 : sizeOf x.1.2 < sizeOf x.1 := by
      cases x.1 with
      | mk a b => simp
    simp only [JVal.obj.sizeOf_spec]
    omega
  · have h3 : sizeOf x.1 < sizeOf xs := List.sizeOf_lt_of_mem x.2
    simp only [JVal.arr.sizeOf_spec]
    omega

/-- The shaping fields of a backend config as the handler reads them. -/
structure ShapeCfg where
  keyDelete : Option (List String)
  keyAdd : Option (List (String × JVal))
  keyRename : Option (List (String × String))

/-- applyKeyDeletions: identity unless the config carries a key_delete
array. -/
def applyKeyDeletions (req : JVal) (cfg : ShapeCfg) : JVal :=
  match cfg.keyDelete with
  | some ks => deleteKeys ks req
  | none => req

/-- applyKeyAdditions: identity unless the config carries a key_add map. -/
def applyKeyAdditions (req : JVal) (cfg : ShapeCfg) : JVal :=
  match cfg.keyAdd with
  | some adds => addKeys adds req
  | none => req

/-- applyKeyRenames: identity unless the config carries a key_rename map. -/
def applyKeyRenames (req : JVal) (cfg : ShapeCfg) : JVal :=
  match cfg.keyRename with
  | some m => renameKeys m req
  | none => req

/-- The handler's shaping pipeline: deletions, then additions, then
renames. -/
def shapePayload (req : JVal) (cfg : ShapeCfg) : JVal :=
  applyKeyRenames (applyKeyAdditions (applyKeyDeletions req cfg) cfg) cfg

/-- The request of spec scenario S6. -/
def c6Request : JVal :=
  .obj [("max_tokens", .num 500), ("temperature", .num (7/10)), ("existing", .str "k")]

/-- The descriptor transforms of spec scenario S6. -/
def c6Cfg : ShapeCfg :=
  ⟨some ["max_tokens"], some [("new", .str "v")], some [("existing", "renamed")]⟩

/-! ## Client authentication (http/auth.js and
Config.validate_client_api_key)

Headers model the two header reads; a missing header is none (the JS null)
and the token table is the tokens object as a name-to-token association
list. -/

/-- The two request headers the auth check reads. -/
structure ReqHeaders where
  xApiKey : Option String
  authorization : Option String

/-- The seven characters of the lowercased bearer marker. -/
def bearerMarker : List Char := ['b', 'e', 'a', 'r', 'e', 'r', ' ']

/-- JS String.prototype.trim on both ends. -/
def jsTrim (s : String) : String :=
  ⟨((s.toList.dropWhile Char.isWhitespace).reverse.dropWhile Char.isWhitespace).reverse⟩

/-- The Authorization fallback of getClientBearer: when the lowercased header
starts with the bearer marker, the raw header with its first seven characters
removed, trimmed; otherwise nothing. -/
def bearerFrom (h : ReqHeaders) : Option String :=
  let auth := match h.authorization with
    | some a => a
    | none => ""
  if leadsWith bearerMarker (lowerChars auth) then some (jsTrim ⟨auth.toList.drop 7⟩)
  else none

/-- getClientBearer: a present non-empty x-api-key wins outright; otherwise
the Authorization header is consulted. -/
def getClientBearer (h : ReqHeaders) : Option String :=
  match h.xApiKey with
  | some x => if x = "" then bearerFrom h else some x
  | none => bearerFrom h

/-- Config.validate_client_api_key: accept anything when the table is empty,
otherwise membership among the table's values. -/
def validate_client_api_key (tokens : List (String × String)) (clientKey : String) :
    Bool :=
  if tokens.isEmpty then true else (tokens.map Prod.snd).contains clientKey

/-- The 401 message of requireClientAuth. -/
def authErrMsg : String := "Invalid API key. Please provide a valid Bearer token."

/-- requireClientAuth: skip when no tokens are configured; otherwise extract
the client credential and reject with 401 when it is missing, empty, or not a
configured token value. -/
def requireClientAuth (h : ReqHeaders) (tokens : List (String × String)) :
    Except (Nat × String) Unit :=
  if tokens.isEmpty then .ok ()
  else
    match getClientBearer h with
    | none => .error (401, authErrMsg)
    | some k =>
        if k = "" then .error (401, authErrMsg)
        else if validate_client_api_key tokens k then .ok ()
        else .error (401, authErrMsg)

/-- Acceptance through the Authorization header alone, as the amended claim
words it: a bearer credential that is non-empty after trimming and appears
among the table values. -/
def acceptBearer (h : ReqHeaders) (values : List String) : Bool :=
  match bearerFrom h with
  | some t => !(t = "") && values.contains t
  | none => false

/-- The acceptance predicate of the amended claim: a present non-empty
x-api-key is accepted exactly when its value is in the table (the
Authorization header is then ignored); otherwise the bearer credential
decides. -/
def acceptSpecAuth (h : ReqHeaders) (tokens : List (String × String)) : Bool :=
  match h.xApiKey with
  | some x =>
      if x = "" then acceptBearer h (tokens.map Prod.snd)
      else (tokens.map Prod.snd).contains x
  | none => acceptBearer h (tokens.map Prod.snd)

/-- C7 counterexample input: an invalid x-api-key next to a valid Bearer
token. -/
def c7Headers : ReqHeaders := ⟨some "bad", some "Bearer tok"⟩

/-- C7 counterexample token table. -/
def c7Tokens : List (String × String) := [("a", "tok")]

/-! ## Token counting (the count_tokens handler and countTokensFast in the
tokenizer adapter)

The BPE encoder of the external tiktoken module is abstracted as an optional
function from text to token count; none models the module being unavailable,
which sends countTokensFast to its chars-over-four fallback. -/

/-- A content block as the token counter inspects it; an empty text string
models a missing or empty text field (both falsy). -/
structure TBlock where
  btype : String
  text : String

/-- Message content for the token counter. -/
inductive TContent where
  | str : String → TContent
  | blocks : List TBlock → TContent

/-- A message as the token counter inspects it. -/
structure TMsg where
  content : Option TContent

/-- countTokensFast over a messages array: per message, the encoder applied
to a string content (skipped when falsy) or to each block of type text with
truthy text; without an encoder the same sources are measured in characters
and the total falls back to max 1 of chars over four. -/
def countTokensFastMsgs (enc : Option (String → Nat)) (messages : List TMsg) : Nat :=
  match enc with
  | some e =>
      messages.foldl (fun acc m =>
        acc + (match m.content with
          | none => 0
          | some (.str s) => if s = "" then 0 else e s
          | some (.blocks bs) =>
              bs.foldl (fun a b =>
                a + (if b.btype = "text" && !(b.text = "") then e b.text else 0)) 0)) 0
  | none =>
      max 1 ((messages.foldl (fun acc m =>
        acc + (match m.content with
          | none => 0
          | some (.str s) => if s = "" then 0 else s.length
          | some (.blocks bs) =>
              bs.foldl (fun a b =>
                a + (if b.btype = "text" && !(b.text = "") then b.text.length else 0)) 0)) 0)
        / 4)

/-- countTokensFast over a plain string (the handler's system path). -/
def countTokensFastText (enc : Option (String → Nat)) (s : String) : Nat :=
  match enc with
  | some e => e s
  | none => max 1 (s.length / 4)

/-- The body's system field. -/
inductive SysField where
  | absent : SysField
  | str : String → SysField
  | blocks : List TBlock → SysField

/-- The concatenated text of system blocks, skipping falsy text fields, as
the handler accumulates it. -/
def sysJoin (bs : List TBlock) : String :=
  bs.foldl (fun acc b => if !(b.text = "") then acc ++ b.text else acc) ""

/-- The input_tokens value the count_tokens handler returns: countTokensFast
of the system text (when the system field is truthy) plus countTokensFast of
the messages array. -/
def countTokensHandler (enc : Option (String → Nat)) (system : SysField)
    (messages : List TMsg) : Nat :=
  (match system with
    | .absent => 0
    | .str s => if s = "" then 0 else countTokensFastText enc s
    | .blocks bs => countTokensFastText enc (sysJoin bs))
    + countTokensFastMsgs enc messages

/-- Modelled from the spec: the section 4.2 estimate the claim says the
endpoint returns — encoder counts of the system string and of every text
block, 85 tokens per image block, 4 tokens per message, falling back to
max 1 of total characters over four across the same sources when no encoder
is available. -/
def spec42Estimate (enc : Option (String → Nat)) (system : SysField)
    (messages : List TMsg) : Nat :=
  let sysText := match system with
    | .absent => ""
    | .str s => s
    | .blocks bs => sysJoin bs
  match enc with
  | some e =>
      (if sysText = "" then 0 else e sysText)
        + (messages.map (fun m =>
            (match m.content with
              | none => 0
              | some (.str s) => e s
              | some (.blocks bs) =>
                  (bs.map (fun b =>
                    if b.btype = "text" then e b.text
                    else if b.btype = "image" then 85 else 0)).sum)
              + 4)).sum
  | none =>
      max 1 ((sysText.length
        + (messages.map (fun m =>
            match m.content with
              | none => 0
              | some (.str s) => s.length
              | some (.blocks bs) =>
                  (bs.map (fun b =>
                    if b.btype = "text" then b.text.length else 0)).sum)).sum) / 4)

/-- The texts a message contributes to the endpoint's count. -/
def TMsg.texts : TMsg → List String
  | ⟨none⟩ => []
  | ⟨some (.str s)⟩ => if s = "" then [] else [s]
  | ⟨some (.blocks bs)⟩ =>
      (bs.filter (fun b => b.btype = "text" && !(b.text = ""))).map (fun b => b.text)

/-- The count the amended claim asserts: system text tokens plus the text
tokens of the messages — image blocks contribute nothing and there is no
per-message overhead — with the system part and the messages part falling
back independently to max 1 of their characters over four when no encoder is
available. -/
def amendedCountSpec (enc : Option (String → Nat)) (system : SysField)
    (messages : List TMsg) : Nat :=
  let sysText : Option String := match system with
    | .absent => none
    | .str s => if s = "" then none else some s
    | .blocks bs => some (sysJoin bs)
  match enc with
  | some e =>
      (match sysText with
        | some s => e s
        | none => 0)
        + (messages.map (fun m => (m.texts.map e).sum)).sum
  | none =>
      (match sysText with
        | some s => max 1 (s.length / 4)
        | none => 0)
        + max 1 ((messages.map (fun m => (m.texts.map String.length).sum)).sum / 4)

/-- C8 counterexample message list: one message holding a single image
block. -/
def c8ImageMsgs : List TMsg := [⟨some (.blocks [⟨"image", ""⟩])⟩]

/-! ## Anthropic to internal message translation (the claude_to_openai
conversion module)

Content payloads that the source serialises through JSON.stringify carry
their JSON encoding as an opaque string. -/

/-- An item inside a tool_result content array, by the shape
parse_tool_result_content branches on: a plain string, a block of type text,
any other object that has a text field, or any other object (carrying the
JSON encoding the source would produce for it). -/
inductive TRItem where
  | str : String → TRItem
  | textBlock : String → TRItem
  | withText : String → TRItem
  | otherObj : String → TRItem

/-- The string an array item contributes. -/
def trItemText : TRItem → String
  | .str s => s
  | .textBlock t => t
  | .withText t => t
  | .otherObj j => j

/-- The content of a tool_result block, by the shapes the source
distinguishes. -/
inductive TRContent where
  | none : TRContent
  | str : String → TRContent
  | arr : List TRItem → TRContent
  | textObj : String → TRContent
  | otherObj : String → TRContent

/-- parse_tool_result_content: null becomes a placeholder, strings pass
through, arrays join their items' texts with newlines and trim, an object of
type text yields its text, any other object its JSON encoding. -/
def parse_tool_result_content : TRContent → String
  | .none => "No content provided"
  | .str s => s
  | .arr items => jsTrim (String.intercalate "\n" (items.map trItemText))
  | .textObj t => t
  | .otherObj j => j

/-- The base64 source of an image block. -/
structure ImgSrc where
  stype : String
  mediaType : String
  data : String

/-- A content block of an Anthropic message; tool_use carries its id, name
and the JSON encoding of its input. -/
inductive CBlock where
  | text : String → CBlock
  | image : Option ImgSrc → CBlock
  | toolUse : String → String → String → CBlock
  | toolResult : String → TRContent → CBlock
  | other : CBlock

/-- Anthropic message content. -/
inductive CContent where
  | str : String → CContent
  | blocks : List CBlock → CContent

/-- An Anthropic message. -/
structure CMsg where
  role : String
  content : Option CContent

/-- An entry of an internal tool_calls array; arguments is the JSON encoding
of the tool input. -/
structure OToolCall where
  id : String
  name : String
  arguments : String

/-- An internal content block. -/
inductive OBlock where
  | text : String → OBlock
  | imageUrl : String → OBlock

/-- Internal message content: a string, an array of blocks, or null. -/
inductive OContent where
  | str : String → OContent
  | blocks : List OBlock → OContent
  | null : OContent

/-- An internal chat message.  An absent tool_calls field and an empty one
are identified, as are an absent and a null tool_call_id. -/
structure OMsg where
  role : String
  content : OContent
  toolCalls : List OToolCall
  toolCallId : Option String

/-- convert_claude_user_message: strings pass through; block arrays keep
text blocks and well-formed base64 image blocks (re-encoded as data URLs),
and collapse to a plain string when exactly one text block results. -/
def convert_claude_user_message (m : CMsg) : OMsg :=
  if m.role ≠ "user" then ⟨"user", .str "", [], none⟩
  else match m.content with
    | none => ⟨"user", .str "", [], none⟩
    | some (.str c) => ⟨"user", .str c, [], none⟩
    | some (.blocks bs) =>
        let oc : List OBlock := bs.foldl (fun acc b =>
          match b with
          | .text t => acc ++ [.text t]
          | .image (some src) =>
              if src.stype = "base64" && !(src.mediaType = "") && !(src.data = "") then
                acc ++ [.imageUrl ("data:" ++ src.mediaType ++ ";base64," ++ src.data)]
              else acc
          | _ => acc) []
        match oc with
        | [.text t] => ⟨"user", .str t, [], none⟩
        | _ => ⟨"user", .blocks oc, [], none⟩

/-- convert_claude_assistant_message: text blocks are concatenated (null
content when there are none); tool_use blocks become tool_calls entries. -/
def convert_claude_assistant_message (m : CMsg) : OMsg :=
  if m.role ≠ "assistant" then ⟨"assistant", .null, [], none⟩
  else match m.content with
    | none => ⟨"assistant", .null, [], none⟩
    | some (.str c) => ⟨"assistant", .str c, [], none⟩
    | some (.blocks bs) =>
        let textParts : List String := bs.foldl (fun acc b =>
          match b with
          | .text t => acc ++ [t]
          | _ => acc) []
        let toolCalls : List OToolCall := bs.foldl (fun acc b =>
          match b with
          | .toolUse i n args => acc ++ [⟨i, n, args⟩]
          | _ => acc) []
        ⟨"assistant",
          (if textParts.isEmpty then .null else .str (String.join textParts)),
          toolCalls, none⟩

/-- convert_claude_tool_results: one tool-role message per tool_result block,
in order. -/
def convert_claude_tool_results (m : CMsg) : List OMsg :=
  match m.content with
  | some (.blocks bs) =>
      bs.foldl (fun acc b =>
        match b with
        | .toolResult tid content =>
            acc ++ [⟨"tool", .str (parse_tool_result_content content), [], some tid⟩]
        | _ => acc) []
  | _ => []

/-- The lookahead test of the conversion loop: a user message whose array
content holds at least one tool_result block. -/
def isToolResultUser (m : CMsg) : Bool :=
  m.role = "user"
    && (match m.content with
        | some (.blocks bs) =>
            bs.any (fun b => match b with | .toolResult _ _ => true | _ => false)
        | _ => false)

/-- convert_claude_to_openai_user_or_toolresult: a user message that holds
tool_result blocks is replaced by a user message with empty string content;
anything else converts as a normal user message. -/
def convert_claude_to_openai_user_or_toolresult (m : CMsg) : OMsg :=
  if isToolResultUser m then ⟨"user", .str "", [], none⟩
  else convert_claude_user_message m

/-- The message loop of convert_claude_to_openai: user messages convert via
the user-or-toolresult gate; after an assistant message, a directly following
tool-result user message is consumed and expanded into tool-role messages;
messages of any other role are dropped. -/
def convertClaudeMessages : List CMsg → List OMsg
  | [] => []
  | [m] =>
      if m.role = "user" then [convert_claude_to_openai_user_or_toolresult m]
      else if m.role = "assistant" then [convert_claude_assistant_message m]
      else []
  | m :: next :: rest' =>
      if m.role = "user" then
        convert_claude_to_openai_user_or_toolresult m
          :: convertClaudeMessages (next :: rest')
      else if m.role = "assistant" then
        if isToolResultUser next then
          convert_claude_assistant_message m ::
            (convert_claude_tool_results next ++ convertClaudeMessages rest')
        else
          convert_claude_assistant_message m :: convertClaudeMessages (next :: rest')
      else convertClaudeMessages (next :: rest')

/-- The user message with empty string content the gate emits. -/
def emptyUserMsg : OMsg := ⟨"user", .str "", [], none⟩

/-- A user message carrying a tool_result block and a text block. -/
def c9TRMsg : CMsg :=
  ⟨"user", some (.blocks [.toolResult "toolu_1" (.str "result text"), .text "a note"])⟩

/-- A plain user text message. -/
def c9UserMsg : CMsg := ⟨"user", some (.str "hello")⟩

/-- An assistant message carrying one tool_use block. -/
def c9AsstMsg : CMsg :=
  ⟨"assistant", some (.blocks [.toolUse "toolu_1" "get_weather" "null"])⟩

/-! ## OpenAI to Anthropic response translation (the openai_to_claude
conversion module)

JSON.parse is abstracted as a function returning an optional value (none for
a parse failure) and crypto.randomUUID as a supplied fresh string. -/

/-- The function field of an upstream tool call; arguments is its JSON
encoding, the empty string modelling a missing field. -/
structure OAToolCallFn where
  name : String
  arguments : String

/-- An upstream tool call. -/
structure OAToolCall where
  ttype : String
  id : String
  fn : OAToolCallFn

/-- The message of an upstream choice. -/
structure OAMessage where
  content : Option String
  toolCalls : List OAToolCall

/-- An upstream choice. -/
structure OAChoice where
  message : Option OAMessage
  finishReason : Option String

/-- A content item of a Responses-API output entry. -/
inductive OutContent where
  | outputText : String → OutContent
  | toolCall : Option String → String → Option JVal → OutContent
  | otherItem : OutContent

/-- A Responses-API output entry. -/
structure OutItem where
  itype : String
  content : List OutContent

/-- An upstream response of either shape: a missing choices or output array
is the empty list, usage fields absent are none. -/
structure OAResponse where
  object : Option String
  choices : List OAChoice
  output : List OutItem
  id : Option String
  promptTokens : Option Nat
  completionTokens : Option Nat

/-- An Anthropic content block of the translated response. -/
inductive ClBlock where
  | text : String → ClBlock
  | toolUse : String → String → JVal → ClBlock

/-- The translated Anthropic response (its constant fields type message,
role assistant and stop_sequence null are left implicit). -/
structure ClaudeResponse where
  id : String
  model : Option String
  content : List ClBlock
  stopReason : String
  inputTokens : Nat
  outputTokens : Nat

/-- map_finish_reason_to_stop_reason; the constant strings follow the
conversion table of the design document since the constants module is
external to the core sources. -/
def map_finish_reason_to_stop_reason (fr : String) : String :=
  if fr = "length" then "max_tokens"
  else if fr = "tool_calls" || fr = "function_call" then "tool_use"
  else if fr = "stop" then "end_turn"
  else "end_turn"

/-- convert_openai_responses_to_claude_response: fails with 500 when the
output array is empty or absent; otherwise collects output_text blocks and
the tool_call blocks whose names appear among the original request's tool
names. -/
def convert_openai_responses_to_claude_response (freshId : String)
    (resp : OAResponse) (origToolNames : List String) (origModel : Option String) :
    Except (Nat × String) ClaudeResponse :=
  if resp.output.isEmpty then
    .error (500, "No output in OpenAI Responses API response")
  else
    let blocks : List ClBlock := resp.output.foldl (fun acc item =>
      if item.itype ≠ "message" then acc
      else item.content.foldl (fun acc2 ci =>
        match ci with
        | .outputText t => acc2 ++ [ClBlock.text t]
        | .toolCall tid name input =>
            if origToolNames.contains name then
              acc2 ++ [ClBlock.toolUse
                (match tid with | some i => i | none => "tool_" ++ freshId)
                name
                (match input with | some v => v | none => .obj [])]
            else acc2
        | .otherItem => acc2) acc) []
    let stopReason :=
      if blocks.any (fun b => match b with | .toolUse _ _ _ => true | _ => false)
      then "tool_use" else "end_turn"
    .ok ⟨(match resp.id with | some i => i | none => "msg_" ++ freshId),
      origModel, blocks, stopReason,
      (match resp.promptTokens with | some n => n | none => 0),
      (match resp.completionTokens with | some n => n | none => 0)⟩

/-- convert_openai_to_claude_response: Responses-shaped payloads delegate to
the Responses translator; otherwise an empty or absent choices array fails
with 500, and the first choice's text and function tool calls become
Anthropic content blocks (an empty argument string parses as the empty
object; a parse failure wraps the raw argument text). -/
def convert_openai_to_claude_response (parseJson : String → Option JVal)
    (freshId : String) (resp : OAResponse) (origToolNames : List String)
    (origModel : Option String) : Except (Nat × String) ClaudeResponse :=
  if resp.object = some "response" then
    convert_openai_responses_to_claude_response freshId resp origToolNames origModel
  else
    match resp.choices with
    | [] => .error (500, "No choices in OpenAI response")
    | choice :: _ =>
        let message := match choice.message with
          | some msg => msg
          | none => ⟨none, []⟩
        let blocks0 : List ClBlock := match message.content with
          | some t => [ClBlock.text t]
          | none => []
        let blocks1 := message.toolCalls.foldl (fun acc tc =>
          if tc.ttype = "function" then
            let args := match
                parseJson (if tc.fn.arguments = "" then "\x7b\x7d" else tc.fn.arguments) with
              | some v => v
              | none => JVal.obj [("raw_arguments", .str tc.fn.arguments)]
            acc ++ [ClBlock.toolUse
              (if tc.id = "" then "tool_" ++ freshId else tc.id) tc.fn.name args]
          else acc) blocks0
        let blocks := if blocks1.isEmpty then [ClBlock.text ""] else blocks1
        let sr := map_finish_reason_to_stop_reason
          (match choice.finishReason with | some f => f | none => "stop")
        .ok ⟨(match resp.id with | some i => i | none => "msg_" ++ freshId),
          origModel, blocks, sr,
          (match resp.promptTokens with | some n => n | none => 0),
          (match resp.completionTokens with | some n => n | none => 0)⟩

/-- A chat-completions response with no choices. -/
def c10EmptyChat : OAResponse := ⟨none, [], [], none, none, none⟩

/-- A Responses-shaped response with no output. -/
def c10EmptyResponses : OAResponse := ⟨some "response", [], [], none, none, none⟩

/-! ### Selector lemmas -/

theorem find?_filter_eq {α : Type} (l : List α) (p q : α → Bool) :
    (l.filter p).find? q = l.find? (fun a => p a && q a) := by
  induction l with
  | nil => rfl
  | cons a l ih =>
      by_cases hp : p a
      · simp only [List.filter_cons, hp, if_true]
        by_cases hq : q a
        · simp [List.find?, hp, hq]
        · simp only [Bool.not_eq_true] at hq
          simp [List.find?, hp, hq, ih]
      · simp only [Bool.not_eq_true] at hp
        simp only [List.filter_cons, hp, Bool.false_eq_true, if_false]
        simp [List.find?, hp, ih]

theorem find?_congr_mem {α : Type} (l : List α) (p q : α → Bool)
    (h : ∀ a ∈ l, p a = q a) : l.find? p = l.find? q := by
  induction l with
  | nil => rfl
  | cons a l ih =>
      have ha := h a (List.mem_cons_self a l)
      by_cases hp : p a
      · simp [List.find?, hp, ha ▸ hp]
      · simp only [Bool.not_eq_true] at hp
        have hq : q a = false := ha ▸ hp
        simp [List.find?, hp, hq]
        exact ih (fun a ha' => h a (List.mem_cons_of_mem _ ha'))

theorem foldl_assocSet_fresh {α : Type} (l : List (String × α))
    (acc : List (String × α))
    (hdisj : ∀ kv ∈ l, ∀ kv' ∈ acc, kv'.1 ≠ kv.1)
    (hnd : (l.map Prod.fst).Nodup) :
    l.foldl (fun acc kv => assocSet acc kv.1 kv.2) acc = acc ++ l := by
  induction l generalizing acc with
  | nil => simp
  | cons kv l ih =>
      have hnotin : acc.any (fun kv' => kv'.1 = kv.1) = false := by
        simp only [List.any_eq_false, decide_eq_true_eq]
        intro kv' hkv'
        exact hdisj kv (List.mem_cons_self _ _) kv' hkv'
      simp only [List.foldl_cons]
      rw [show assocSet acc kv.1 kv.2 = acc ++ [(kv.1, kv.2)] by
        simp [assocSet, hnotin]]
      have hnd' : (l.map Prod.fst).Nodup := (List.nodup_cons.mp hnd).2
      have hhead : kv.1 ∉ l.map Prod.fst := (List.nodup_cons.mp hnd).1
      rw [ih _ ?_ hnd']
      · simp
      · intro kv2 hkv2 kv' hkv'
        rcases List.mem_append.mp hkv' with h1 | h2
        · exact hdisj kv2 (List.mem_cons_of_mem _ hkv2) kv' h1
        · have : kv' = (kv.1, kv.2) := List.mem_singleton.mp h2
          subst this
          intro hEq
          exact hhead (hEq ▸ List.mem_map_of_mem Prod.fst hkv2)

theorem backendConfigs_of_nodup (backends : List Backend)
    (hnd : (backends.map Backend.model).Nodup) :
    backendConfigs backends = backends.map (fun b => (b.model, b.toCfg)) := by
  have h := foldl_assocSet_fresh (backends.map (fun b => (b.model, b.toCfg))) []
    (by intro kv hkv kv' hkv'; simp at hkv')
    (by
      have : (backends.map (fun b => (b.model, b.toCfg))).map Prod.fst
          = backends.map Backend.model := by
        simp [List.map_map]
      rw [this]; exact hnd)
  simp only [List.nil_append] at h
  rw [← h]
  unfold backendConfigs
  rw [List.foldl_map]

theorem assocGet_map_self (l : List Backend) (b : Backend)
    (hnd : (l.map Backend.model).Nodup) (hmem : b ∈ l) :
    assocGet (l.map (fun b => (b.model, b.toCfg))) b.model = some b.toCfg := by
  induction l with
  | nil => cases hmem
  | cons a l ih =>
      rcases List.mem_cons.mp hmem with rfl | hmem'
      · simp [assocGet, List.find?]
      · have hnd' := List.nodup_cons.mp hnd
        have hne : a.model ≠ b.model := by
          intro hEq
          exact hnd'.1 (hEq ▸ List.mem_map_of_mem Backend.model hmem')
        simp only [List.map_cons, assocGet, List.find?]
        simp only [hne, decide_eq_true_eq, decide_False]
        exact ih hnd'.2 hmem'

theorem getBackendConfig_of_nodup (backends : List Backend) (b : Backend)
    (hnd : (backends.map Backend.model).Nodup) (hmem : b ∈ backends) :
    getBackendConfig backends b.model = b.toCfg := by
  unfold getBackendConfig
  rw [backendConfigs_of_nodup backends hnd, assocGet_map_self backends b hnd hmem]

/-- C1 (counterexample).  The claim quantifies over every backend catalog and
says selectBackend returns the model of the first descriptor whose own fields
qualify.  With two descriptors sharing the model string a:b and contexts 100
and 50, at 80 estimated tokens the first descriptor qualifies (80 ≤ 100), so
the claim demands some a:b; the code stores backend_configs keyed by model
string, the second entry overwrites the first, and both scan steps are gated
against context 50, so selectBackend returns none. -/
theorem c1_selectBackend_counterexample :
    (c1DupCatalog.find? (claimQualifies plainRequest 80 [])).map (fun b => b.model)
        = some "a:b"
      ∧ selectBackend c1DupCatalog plainRequest 80 [] = none := by
  constructor <;> rfl

/-- C1 (amended): for any catalog whose descriptors carry pairwise distinct
model strings, selectBackend returns the model of the first descriptor in
catalog order that is not excluded, admits the token estimate through the
context gate, has vision when the request contains an image block, has
thinking when the request needs thinking, and matches some pattern when its
model_match list is non-empty; it returns none exactly when no descriptor
qualifies. -/
theorem c1_selectBackend_first_qualifying (backends : List Backend)
    (r : SRequest) (t : Nat) (failed : List String)
    (hnd : (backends.map Backend.model).Nodup) :
    selectBackend backends r t failed
      = (backends.find? (claimQualifies r t failed)).map (fun b => b.model) := by
  simp only [selectBackend]
  rw [find?_filter_eq]
  congr 1
  apply find?_congr_mem
  intro b hb
  rw [getBackendConfig_of_nodup backends b hnd hb]
  simp [claimQualifies, Backend.toCfg, Bool.and_assoc]

/-- Closed witness for the amended C1 theorem at the two-descriptor catalog of
spec scenario S2. -/
theorem c1_selectBackend_first_qualifying_witness :
    selectBackend [⟨"S:s", some 131000, false, false, none⟩,
        ⟨"L:l", some 198000, false, false, none⟩] plainRequest 132000 []
      = (([⟨"S:s", some 131000, false, false, none⟩,
          ⟨"L:l", some 198000, false, false, none⟩] :
            List Backend).find? (claimQualifies plainRequest 132000 [])).map
          (fun b => b.model) :=
  c1_selectBackend_first_qualifying _ plainRequest 132000 [] (by decide)

/-- C2 (counterexample).  The claim says a descriptor with no context field is
gated as if its context were 128000, so selectBackend must never return it at
200000 estimated tokens; the code skips the context check entirely when
config.context is absent and returns the descriptor. -/
theorem c2_missing_context_counterexample :
    selectBackend c2NoCtxCatalog plainRequest 200000 [] = some "a:b"
      ∧ 200000 > 128000 := by
  constructor
  · rfl
  · decide

/-- C2 (amended): a descriptor whose context field is absent is not gated on
context at all — the selector accepts it for every token estimate — and a
descriptor with a present nonzero context is never rejected on the context
condition when the estimate is at most that context.  (The 128000 default of
getBackendConfig only applies to models missing from the catalog, which the
selection loop never queries.) -/
theorem c2_missing_context_ungated (b : Backend) (r : SRequest) (t : Nat)
    (failed : List String)
    (hex : failed.contains b.model = false)
    (hvis : hasImageContent r = false)
    (hth : needsThinking r = false)
    (hmm : b.modelMatch = none) :
    (b.context = none → selectBackend [b] r t failed = some b.model)
      ∧ (∀ c, b.context = some c → c ≠ 0 → t ≤ c →
          selectBackend [b] r t failed = some b.model) := by
  have hcfg : getBackendConfig [b] b.model = b.toCfg := by
    apply getBackendConfig_of_nodup
    · simp
    · simp
  constructor
  · intro hctx
    simp only [selectBackend, List.filter, hex, List.find?, hcfg]
    have h1 : contextAdmits b.toCfg t = true := by
      simp [contextAdmits, Backend.toCfg, hctx]
    have h2 : modelMatchOk b.toCfg r = true := by
      simp [modelMatchOk, Backend.toCfg, hmm]
    simp [h1, h2, hvis, hth]
  · intro c hctx hc ht
    simp only [selectBackend, List.filter, hex, List.find?, hcfg]
    have h1 : contextAdmits b.toCfg t = true := by
      simp only [contextAdmits, Backend.toCfg, hctx]
      simp only [Bool.not_eq_true']
      simp only [Bool.and_eq_false_iff]
      right
      simp only [decide_eq_false_iff_not, not_lt]
      exact ht
    have h2 : modelMatchOk b.toCfg r = true := by
      simp [modelMatchOk, Backend.toCfg, hmm]
    simp [h1, h2, hvis, hth]

/-- Closed witness for the amended C2 theorem: a context-free descriptor is
selected at 200000 tokens, and a context-131000 descriptor at 131000 tokens. -/
theorem c2_missing_context_ungated_witness :
    selectBackend [⟨"a:b", none, false, false, none⟩] plainRequest 200000 []
        = some "a:b"
      ∧ selectBackend [⟨"S:s", some 131000, false, false, none⟩] plainRequest
          131000 [] = some "S:s" :=
  ⟨(c2_missing_context_ungated ⟨"a:b", none, false, false, none⟩ plainRequest
      200000 [] (by decide) (by decide) (by decide) rfl).1 rfl,
   (c2_missing_context_ungated ⟨"S:s", some 131000, false, false, none⟩ plainRequest
      131000 [] (by decide) (by decide) (by decide) rfl).2 131000 rfl
      (by decide) (by decide)⟩

/-! ### Failover lemmas -/

theorem runList_trace_subset {R : Type} (A : Nat → String → Except String R)
    (primary : String) (bs : List String) (k : Nat) :
    ∀ x ∈ (runList A primary bs k).trace, x ∈ bs := by
  induction bs generalizing k with
  | nil => intro x hx; simp [runList, CycleRes.trace] at hx
  | cons b bs ih =>
      intro x hx
      simp only [runList] at hx
      cases hA : A k b with
      | ok r => simp [hA, CycleRes.trace] at hx; simp [hx]
      | error msg =>
          simp only [hA] at hx
          by_cases hd : (b = primary && isDayLimitMsg msg) = true
          · simp [hd, CycleRes.trace] at hx; simp [hx]
          · simp only [Bool.not_eq_true] at hd
            simp only [hd, Bool.false_eq_true, if_false] at hx
            cases hr : runList A primary bs (k + 1) with
            | success b' r k' t =>
                simp [hr, CycleRes.trace] at hx
                rcases hx with rfl | hx
                · exact List.mem_cons_self _ _
                · exact List.mem_cons_of_mem _ (ih (k + 1) x (by simp [hr, CycleRes.trace, hx]))
            | dayLimit k' t =>
                simp [hr, CycleRes.trace] at hx
                rcases hx with rfl | hx
                · exact List.mem_cons_self _ _
                · exact List.mem_cons_of_mem _ (ih (k + 1) x (by simp [hr, CycleRes.trace, hx]))
            | exhausted k' t =>
                simp [hr, CycleRes.trace] at hx
                rcases hx with rfl | hx
                · exact List.mem_cons_self _ _
                · exact List.mem_cons_of_mem _ (ih (k + 1) x (by simp [hr, CycleRes.trace, hx]))

theorem runList_trace_length {R : Type} (A : Nat → String → Except String R)
    (primary : String) (bs : List String) (k : Nat) :
    (runList A primary bs k).trace.length ≤ bs.length := by
  induction bs generalizing k with
  | nil => simp [runList, CycleRes.trace]
  | cons b bs ih =>
      simp only [runList]
      cases hA : A k b with
      | ok r => simp [CycleRes.trace]
      | error msg =>
          by_cases hd : (b = primary && isDayLimitMsg msg) = true
          · simp [hd, CycleRes.trace]
          · simp only [Bool.not_eq_true] at hd
            simp only [hd, Bool.false_eq_true, if_false]
            cases hr : runList A primary bs (k + 1) with
            | success b' r k' t =>
                have := ih (k + 1); rw [hr] at this
                simpa [CycleRes.trace] using Nat.succ_le_succ this
            | dayLimit k' t =>
                have := ih (k + 1); rw [hr] at this
                simpa [CycleRes.trace] using Nat.succ_le_succ this
            | exhausted k' t =>
                have := ih (k + 1); rw [hr] at this
                simpa [CycleRes.trace] using Nat.succ_le_succ this

theorem runList_dayLimit_mem {R : Type} (A : Nat → String → Except String R)
    (primary : String) (bs : List String) (k : Nat) (k' : Nat) (t : List String)
    (h : runList A primary bs k = .dayLimit k' t) : primary ∈ bs := by
  induction bs generalizing k k' t with
  | nil => simp [runList] at h
  | cons b bs ih =>
      simp only [runList] at h
      cases hA : A k b with
      | ok r => simp [hA] at h
      | error msg =>
          simp only [hA] at h
          by_cases hd : (b = primary && isDayLimitMsg msg) = true
          · have : b = primary := by
              have := (Bool.and_eq_true _ _).mp hd
              exact of_decide_eq_true this.1
            simp [this]
          · simp only [Bool.not_eq_true] at hd
            simp only [hd, Bool.false_eq_true, if_false] at h
            cases hr : runList A primary bs (k + 1) with
            | success b' r k2 t2 => rw [hr] at h; cases h
            | dayLimit k2 t2 => exact List.mem_cons_of_mem _ (ih (k + 1) k2 t2 hr)
            | exhausted k2 t2 => rw [hr] at h; cases h

theorem runList_no_success {R : Type} (A : Nat → String → Except String R)
    (primary : String) (bs : List String) (k : Nat)
    (hfail : ∀ k b, ∃ m, A k b = .error m) :
    ∀ b r k' t, runList A primary bs k ≠ .success b r k' t := by
  induction bs generalizing k with
  | nil => intro b r k' t h; simp [runList] at h
  | cons b bs ih =>
      intro b0 r0 k0 t0 h
      simp only [runList] at h
      rcases hfail k b with ⟨m, hm⟩
      rw [hm] at h
      by_cases hd : (b = primary && isDayLimitMsg m) = true
      · simp [hd] at h
      · simp only [Bool.not_eq_true] at hd
        simp only [hd, Bool.false_eq_true, if_false] at h
        cases hr : runList A primary bs (k + 1) with
        | success b' r k2 t2 => exact ih (k + 1) b' r k2 t2 hr
        | dayLimit k2 t2 => rw [hr] at h; cases h
        | exhausted k2 t2 => rw [hr] at h; cases h

theorem runCycles_attempts_subset {R : Type} (A : Nat → String → Except String R)
    (primary : String) (failover : List String) (now : Nat) (streamMode : Bool)
    (fuel : Nat) :
    ∀ bs cd k x, x ∈ (runCycles A primary failover now streamMode bs cd k fuel).attempts →
      x ∈ bs ∨ x ∈ failover := by
  induction fuel with
  | zero => intro bs cd k x hx; simp [runCycles] at hx
  | succ fuel ih =>
      intro bs cd k x hx
      simp only [runCycles] at hx
      cases hr : runList A primary bs k with
      | success b r k' t =>
          rw [hr] at hx
          exact Or.inl (runList_trace_subset A primary bs k x (by simp [hr, CycleRes.trace, hx]))
      | dayLimit k' t =>
          rw [hr] at hx
          by_cases hf : fuel = 0
          · simp only [hf, if_true] at hx
            exact Or.inl (runList_trace_subset A primary bs k x (by simp [hr, CycleRes.trace, hx]))
          · simp only [hf, if_false] at hx
            rcases List.mem_append.mp hx with h1 | h2
            · exact Or.inl (runList_trace_subset A primary bs k x (by simp [hr, CycleRes.trace, h1]))
            · rcases ih failover (now + 300) k' x h2 with h | h
              · exact Or.inr h
              · exact Or.inr h
      | exhausted k' t =>
          rw [hr] at hx
          by_cases hf : fuel = 0
          · simp only [hf, if_true] at hx
            exact Or.inl (runList_trace_subset A primary bs k x (by simp [hr, CycleRes.trace, hx]))
          · simp only [hf, if_false] at hx
            rcases List.mem_append.mp hx with h1 | h2
            · exact Or.inl (runList_trace_subset A primary bs k x (by simp [hr, CycleRes.trace, h1]))
            · exact ih bs cd k' x h2

theorem runCycles_cooldown_const {R : Type} (A : Nat → String → Except String R)
    (primary : String) (failover : List String) (now : Nat) (streamMode : Bool)
    (fuel : Nat) :
    ∀ bs cd k, primary ∉ bs →
      (runCycles A primary failover now streamMode bs cd k fuel).cooldown = cd := by
  induction fuel with
  | zero => intro bs cd k _; simp [runCycles]
  | succ fuel ih =>
      intro bs cd k hnp
      simp only [runCycles]
      cases hr : runList A primary bs k with
      | success b r k' t => rfl
      | dayLimit k' t => exact absurd (runList_dayLimit_mem A primary bs k k' t hr) hnp
      | exhausted k' t =>
          by_cases hf : fuel = 0
          · simp [hf]
          · simp only [hf, if_false]
            exact ih bs cd k' hnp

/-- Sleeps produced by the remaining fuel under total failure. -/
def sleepsFor : Nat → List Nat
  | 0 => []
  | fuel + 1 => if fuel = 0 then [] else backoffDelay (10 - fuel) :: sleepsFor fuel

theorem runCycles_sleeps_allfail {R : Type} (A : Nat → String → Except String R)
    (primary : String) (failover : List String) (now : Nat) (streamMode : Bool)
    (hfail : ∀ k b, ∃ m, A k b = .error m) (fuel : Nat) :
    ∀ bs cd k,
      (runCycles A primary failover now streamMode bs cd k fuel).sleeps = sleepsFor fuel := by
  induction fuel with
  | zero => intro bs cd k; simp [runCycles, sleepsFor]
  | succ fuel ih =>
      intro bs cd k
      simp only [runCycles, sleepsFor]
      cases hr : runList A primary bs k with
      | success b r k' t =>
          exact absurd hr (runList_no_success A primary bs k hfail b r k' t)
      | dayLimit k' t =>
          by_cases hf : fuel = 0
          · simp [hf]
          · simp [hf, ih]
      | exhausted k' t =>
          by_cases hf : fuel = 0
          · simp [hf]
          · simp [hf, ih]

theorem runCycles_outcome_allfail {R : Type} (A : Nat → String → Except String R)
    (primary : String) (failover : List String) (now : Nat) (streamMode : Bool)
    (hfail : ∀ k b, ∃ m, A k b = .error m) (fuel : Nat) (hfuel : 1 ≤ fuel) :
    ∀ bs cd k,
      (runCycles A primary failover now streamMode bs cd k fuel).outcome
        = .error (503, failCyclesMsg streamMode) := by
  induction fuel with
  | zero => omega
  | succ fuel ih =>
      intro bs cd k
      simp only [runCycles]
      cases hr : runList A primary bs k with
      | success b r k' t =>
          exact absurd hr (runList_no_success A primary bs k hfail b r k' t)
      | dayLimit k' t =>
          by_cases hf : fuel = 0
          · simp [hf]
          · simp only [hf, if_false]
            exact ih (by omega) failover (now + 300) k'
      | exhausted k' t =>
          by_cases hf : fuel = 0
          · simp [hf]
          · simp only [hf, if_false]
            exact ih (by omega) bs cd k'

theorem runCycles_attempts_length {R : Type} (A : Nat → String → Except String R)
    (primary : String) (failover : List String) (now : Nat) (streamMode : Bool)
    (n : Nat) (hfo : failover.length ≤ n) (fuel : Nat) :
    ∀ bs cd k, bs.length ≤ n →
      (runCycles A primary failover now streamMode bs cd k fuel).attempts.length
        ≤ fuel * n := by
  induction fuel with
  | zero => intro bs cd k _; simp [runCycles]
  | succ fuel ih =>
      intro bs cd k hbs
      simp only [runCycles]
      have htr := runList_trace_length A primary bs k
      cases hr : runList A primary bs k with
      | success b r k' t =>
          rw [hr] at htr; simp only [CycleRes.trace] at htr
          calc t.length ≤ bs.length := htr
            _ ≤ n := hbs
            _ ≤ (fuel + 1) * n := Nat.le_mul_of_pos_left n (Nat.succ_pos fuel)
      | dayLimit k' t =>
          rw [hr] at htr; simp only [CycleRes.trace] at htr
          have hlen : t.length ≤ n := le_trans htr hbs
          by_cases hf : fuel = 0
          · subst hf
            simp only [if_pos rfl]
            simpa using hlen
          · simp only [hf, if_false, List.length_append]
            have := ih failover (now + 300) k' hfo
            calc t.length + _ ≤ n + fuel * n := Nat.add_le_add hlen this
              _ = (fuel + 1) * n := by ring
      | exhausted k' t =>
          rw [hr] at htr; simp only [CycleRes.trace] at htr
          have hlen : t.length ≤ n := le_trans htr hbs
          by_cases hf : fuel = 0
          · subst hf
            simp only [if_pos rfl]
            simpa using hlen
          · simp only [hf, if_false, List.length_append]
            have := ih bs cd k' hbs
            calc t.length + _ ≤ n + fuel * n := Nat.add_le_add hlen this
              _ = (fuel + 1) * n := by ring

/-- C3: once the primary fails with a day-limit error, the cooldown is set to
now + 300, the rest of that run attempts only failover backends, and any run
starting inside the window never attempts the primary in any cycle.  Stated
for a run that begins outside any cooldown window (cd0 ≤ now), whose first
attempt — the primary, since the attempt list is primary then failover —
fails with a message containing the day-limit marker. -/
theorem c3_day_limit_cooldown {R : Type} (A A' : Nat → String → Except String R)
    (primary : String) (failover : List String) (now cd0 now' : Nat)
    (streamMode streamMode' : Bool)
    (hfo : failover ≠ []) (hnp : primary ∉ failover) (hcd : cd0 ≤ now)
    (m : String) (hA : A 0 primary = .error m) (hday : isDayLimitMsg m = true) :
    (tryFailoverRun A primary failover now cd0 streamMode).cooldown = now + 300
      ∧ (tryFailoverRun A primary failover now cd0 streamMode).attempts.head?
          = some primary
      ∧ (∀ x ∈ (tryFailoverRun A primary failover now cd0 streamMode).attempts.tail,
          x ∈ failover)
      ∧ (now' < now + 300 →
          primary ∉ (tryFailoverRun A' primary failover now' (now + 300)
            streamMode').attempts) := by
  have hbs : ¬ (now < cd0) := by omega
  have hrl : runList A primary (primary :: failover) 0 = .dayLimit 1 [primary] := by
    simp only [runList, hA]
    simp [hday]
  have hrun : tryFailoverRun A primary failover now cd0 streamMode
      = (let rest := runCycles A primary failover now streamMode failover (now + 300) 1 9
         ⟨[primary] ++ rest.attempts, backoffDelay 1 :: rest.sleeps,
           rest.outcome, rest.cooldown⟩) := by
    simp only [tryFailoverRun, hbs, if_false, runCycles, hrl]
    rfl
  refine ⟨?_, ?_, ?_, ?_⟩
  · rw [hrun]
    exact runCycles_cooldown_const A primary failover now streamMode 9
      failover (now + 300) 1 hnp
  · rw [hrun]; rfl
  · rw [hrun]
    intro x hx
    simp only [List.cons_append, List.tail_cons, List.nil_append] at hx
    rcases runCycles_attempts_subset A primary failover now streamMode 9
      failover (now + 300) 1 x hx with h | h
    · exact h
    · exact h
  · intro hlt
    simp only [tryFailoverRun, hlt, if_true]
    intro hmem
    rcases runCycles_attempts_subset A' primary failover now' streamMode' 10
      failover (now + 300) 0 primary hmem with h | h
    · exact hnp h
    · exact hnp h

/-- Closed witness for C3: primary p:a day-limits on its first attempt, the
single failover backend q:b then serves the request. -/
theorem c3_day_limit_cooldown_witness :
    (tryFailoverRun
        (fun k b => if b = "p:a" then .error "429: tokens per day limit exceeded"
          else .ok (k : Nat))
        "p:a" ["q:b"] 1000 0 false).cooldown = 1000 + 300
      ∧ (tryFailoverRun
          (fun k b => if b = "p:a" then .error "429: tokens per day limit exceeded"
            else .ok (k : Nat))
          "p:a" ["q:b"] 1000 0 false).attempts.head? = some "p:a"
      ∧ (∀ x ∈ (tryFailoverRun
          (fun k b => if b = "p:a" then .error "429: tokens per day limit exceeded"
            else .ok (k : Nat))
          "p:a" ["q:b"] 1000 0 false).attempts.tail, x ∈ ["q:b"])
      ∧ (1100 < 1000 + 300 →
          "p:a" ∉ (tryFailoverRun
            (fun k b => if b = "p:a" then .error "429: tokens per day limit exceeded"
              else .ok (k : Nat))
            "p:a" ["q:b"] 1100 (1000 + 300) true).attempts) :=
  c3_day_limit_cooldown
    (fun k b => if b = "p:a" then .error "429: tokens per day limit exceeded"
      else .ok (k : Nat))
    (fun k b => if b = "p:a" then .error "429: tokens per day limit exceeded"
      else .ok (k : Nat))
    "p:a" ["q:b"] 1000 0 1100 false true
    (by decide) (by decide) (by omega)
    "429: tokens per day limit exceeded" rfl (by decide)

/-- C4 (counterexample).  The claim says the sleeps between consecutive
cycles follow the schedule 2, 4, 8, 15, 15, 30, 30, 60 saturating at 60, so
the first sleep would be 2 seconds; the source indexes the schedule with the
already-incremented cycle counter, so the nine sleeps of a fully failing run
are 4, 8, 15, 15, 30, 30, 60, 60, 60 and the value 2 never occurs. -/
theorem c4_backoff_counterexample :
    (tryFailoverRun allBoom "p:a" ["q:b"] 0 0 false).sleeps
        = [4, 8, 15, 15, 30, 30, 60, 60, 60]
      ∧ claimBackoffSleeps = [2, 4, 8, 15, 15, 30, 30, 60, 60]
      ∧ (tryFailoverRun allBoom "p:a" ["q:b"] 0 0 false).sleeps
          ≠ claimBackoffSleeps := by
  refine ⟨rfl, rfl, ?_⟩
  intro h
  rw [show (tryFailoverRun allBoom "p:a" ["q:b"] 0 0 false).sleeps
      = [4, 8, 15, 15, 30, 30, 60, 60, 60] from rfl] at h
  rw [show claimBackoffSleeps = [2, 4, 8, 15, 15, 30, 30, 60, 60] from rfl] at h
  cases h

/-- C4 (amended): with every attempt failing, a run issues at most
10 × |attempt list| upstream attempts and ends in a 503 whose message says
all backends failed after 10 retry cycles; the nine sleeps between the ten
cycles are 4, 8, 15, 15, 30, 30, 60, 60, 60 seconds — the source schedule
2, 4, 8, 15, 15, 30, 30, 60 read from its second entry on, saturating at
60 (the 2-second entry is never used). -/
theorem c4_cycle_bound_and_backoff {R : Type} (A : Nat → String → Except String R)
    (primary : String) (failover : List String) (now cd0 : Nat) (streamMode : Bool)
    (hfo : failover ≠ [])
    (hfail : ∀ k b, ∃ m, A k b = .error m) :
    (tryFailoverRun A primary failover now cd0 streamMode).attempts.length
        ≤ 10 * (if now < cd0 then failover else primary :: failover).length
      ∧ (tryFailoverRun A primary failover now cd0 streamMode).sleeps
          = [4, 8, 15, 15, 30, 30, 60, 60, 60]
      ∧ (tryFailoverRun A primary failover now cd0 streamMode).outcome
          = .error (503, failCyclesMsg streamMode) := by
  refine ⟨?_, ?_, ?_⟩
  · unfold tryFailoverRun
    by_cases hlt : now < cd0
    · simp only [hlt, if_true]
      exact runCycles_attempts_length A primary failover now streamMode
        failover.length le_rfl 10 failover cd0 0 le_rfl
    · simp only [hlt, if_false]
      exact runCycles_attempts_length A primary failover now streamMode
        (primary :: failover).length (by simp) 10 (primary :: failover) cd0 0 le_rfl
  · unfold tryFailoverRun
    rw [show ([4, 8, 15, 15, 30, 30, 60, 60, 60] : List Nat) = sleepsFor 10 from rfl]
    by_cases hlt : now < cd0 <;> simp only [hlt, if_true, if_false] <;>
      exact runCycles_sleeps_allfail A primary failover now streamMode hfail 10 _ cd0 0
  · unfold tryFailoverRun
    by_cases hlt : now < cd0 <;> simp only [hlt, if_true, if_false] <;>
      exact runCycles_outcome_allfail A primary failover now streamMode hfail 10
        (by omega) _ cd0 0

/-- Closed witness for the amended C4 theorem on a two-backend catalog with
every attempt failing. -/
theorem c4_cycle_bound_and_backoff_witness :
    (tryFailoverRun allBoom "p:a" ["q:b"] 0 0 false).attempts.length
        ≤ 10 * (if (0 : Nat) < 0 then ["q:b"] else "p:a" :: ["q:b"]).length
      ∧ (tryFailoverRun allBoom "p:a" ["q:b"] 0 0 false).sleeps
          = [4, 8, 15, 15, 30, 30, 60, 60, 60]
      ∧ (tryFailoverRun allBoom "p:a" ["q:b"] 0 0 false).outcome
          = .error (503, failCyclesMsg false) :=
  c4_cycle_bound_and_backoff allBoom "p:a" ["q:b"] 0 0 false (by decide)
    (fun _ _ => ⟨"boom", rfl⟩)

/-! ### SSE lemmas -/

theorem splitFirstNN_shape : ∀ (s f r : List Char), splitFirstNN s = some (f, r) →
    s = f ++ '\n' :: '\n' :: r := by
  intro s
  induction s with
  | nil => intro f r hfr; simp [splitFirstNN] at hfr
  | cons c s ih =>
      intro f r hfr
      cases s with
      | nil => simp [splitFirstNN] at hfr
      | cons d s' =>
          simp only [splitFirstNN] at hfr
          by_cases hnn : c = '\n' ∧ d = '\n'
          · rw [if_pos hnn] at hfr
            cases hfr
            simp [hnn.1, hnn.2]
          · rw [if_neg hnn] at hfr
            cases hsub : splitFirstNN (d :: s') with
            | none => rw [hsub] at hfr; cases hfr
            | some p =>
                rw [hsub] at hfr
                cases p with
                | mk f' r' =>
                    simp only [Option.some.injEq, Prod.mk.injEq] at hfr
                    rcases hfr with ⟨hf, hr⟩
                    subst hf
                    subst hr
                    simpa using ih f' r' hsub

theorem splitLinesChars_ne_nil (s : List Char) : splitLinesChars s ≠ [] := by
  induction s with
  | nil => simp [splitLinesChars]
  | cons c s ih =>
      simp only [splitLinesChars]
      by_cases hc : c = '\n'
      · simp [hc]
      · rw [if_neg hc]
        cases h : splitLinesChars s with
        | nil => simp
        | cons l ls => simp

theorem splitLinesChars_append (a b : List Char) :
    splitLinesChars (a ++ '\n' :: b) = splitLinesChars a ++ splitLinesChars b := by
  induction a with
  | nil => simp [splitLinesChars]
  | cons c a ih =>
      show splitLinesChars (c :: (a ++ '\n' :: b))
        = splitLinesChars (c :: a) ++ splitLinesChars b
      by_cases hc : c = '\n'
      · rw [show splitLinesChars (c :: (a ++ '\n' :: b))
            = [] :: splitLinesChars (a ++ '\n' :: b) from by
          simp [splitLinesChars, hc]]
        rw [show splitLinesChars (c :: a) = [] :: splitLinesChars a from by
          simp [splitLinesChars, hc]]
        rw [ih]
        rfl
      · rcases List.exists_cons_of_ne_nil (splitLinesChars_ne_nil a) with ⟨l, ls, hE⟩
        have hE2 : splitLinesChars (a ++ '\n' :: b) = l :: (ls ++ splitLinesChars b) := by
          rw [ih, hE]
          rfl
        rw [show splitLinesChars (c :: (a ++ '\n' :: b))
            = (c :: l) :: (ls ++ splitLinesChars b) from by
          simp only [splitLinesChars, if_neg hc, hE2]]
        rw [show splitLinesChars (c :: a) = (c :: l) :: ls from by
          simp only [splitLinesChars, if_neg hc, hE]]
        rfl

theorem mem_splitLinesChars_mem (s : List Char) (c : Char) :
    ∀ l, l ∈ splitLinesChars s → c ∈ l → c ∈ s := by
  induction s with
  | nil =>
      intro l hl hc
      simp [splitLinesChars] at hl
      subst hl
      exact absurd hc (List.not_mem_nil c)
  | cons a s ih =>
      intro l hl hc
      simp only [splitLinesChars] at hl
      by_cases ha : a = '\n'
      · rw [if_pos ha] at hl
        rcases List.mem_cons.mp hl with rfl | hl'
        · exact absurd hc (List.not_mem_nil c)
        · exact List.mem_cons_of_mem _ (ih l hl' hc)
      · rw [if_neg ha] at hl
        cases hE : splitLinesChars s with
        | nil => exact absurd hE (splitLinesChars_ne_nil s)
        | cons l0 ls =>
            rw [hE] at hl
            rcases List.mem_cons.mp hl with rfl | hl'
            · rcases List.mem_cons.mp hc with rfl | hc'
              · exact List.mem_cons_self _ _
              · exact List.mem_cons_of_mem _
                  (ih l0 (by rw [hE]; exact List.mem_cons_self _ _) hc')
            · exact List.mem_cons_of_mem _
                (ih l (by rw [hE]; exact List.mem_cons_of_mem _ hl') hc)

theorem startsWithData_head (l : List Char) (h : startsWithData l = true) :
    ∃ l', l = 'd' :: l' := by
  cases l with
  | nil => exact absurd h (by decide)
  | cons c l' =>
      refine ⟨l', ?_⟩
      simp only [startsWithData, dataMarker, leadsWith, Bool.and_eq_true,
        decide_eq_true_eq] at h
      rw [h.1]

theorem filter_filter_absorb {α : Type} (l : List α) (p q : α → Bool)
    (h : ∀ a, q a = true → p a = true) :
    (l.filter p).filter q = l.filter q := by
  induction l with
  | nil => rfl
  | cons a l ih =>
      by_cases hq : q a = true
      · have hp := h a hq
        simp [List.filter_cons, hp, hq, ih]
      · simp only [Bool.not_eq_true] at hq
        by_cases hp : p a = true
        · simp [List.filter_cons, hp, hq, ih]
        · simp only [Bool.not_eq_true] at hp
          simp [List.filter_cons, hp, hq, ih]

theorem frameOut_eq_sseSpec (chunk : List Char) : frameOut chunk = sseSpec chunk := by
  unfold frameOut sseSpec
  by_cases hws : chunk.all Char.isWhitespace = true
  · rw [if_pos hws]
    have hnil : (splitLinesChars chunk).filter startsWithData = [] := by
      rw [List.filter_eq_nil]
      intro l hl hdata
      rcases startsWithData_head l hdata with ⟨l', rfl⟩
      have hd : 'd' ∈ chunk :=
        mem_splitLinesChars_mem chunk 'd' _ hl (List.mem_cons_self _ _)
      have hw := List.all_eq_true.mp hws 'd' hd
      exact absurd hw (by decide)
    rw [hnil]
    rfl
  · rw [if_neg hws]
    rw [filter_filter_absorb]
    intro l hdata
    rcases startsWithData_head l hdata with ⟨l', rfl⟩
    simp

theorem sseSpec_split (f r : List Char) :
    sseSpec (f ++ '\n' :: '\n' :: r) = sseSpec f ++ sseSpec r := by
  unfold sseSpec
  rw [show f ++ '\n' :: '\n' :: r = f ++ '\n' :: ('\n' :: r) from rfl]
  rw [splitLinesChars_append]
  rw [show splitLinesChars ('\n' :: r) = [] :: splitLinesChars r from by
    simp [splitLinesChars]]
  rw [List.filter_append]
  have h0 : List.filter startsWithData ([] :: splitLinesChars r)
      = List.filter startsWithData (splitLinesChars r) := by
    rw [List.filter_cons]
    simp [show startsWithData [] = false from by decide]
  rw [h0, List.map_append]

theorem drain_unfold_some (s f r : List Char) (h : splitFirstNN s = some (f, r)) :
    drain s = (frameOut f ++ (drain r).1, (drain r).2) := by
  rw [drain]
  split
  next f' r' heq => rw [h] at heq; cases heq; rfl
  next heq => rw [h] at heq; cases heq

theorem drain_unfold_none (s : List Char) (h : splitFirstNN s = none) :
    drain s = ([], s) := by
  rw [drain]
  split
  next f' r' heq => rw [h] at heq; cases heq
  next heq => rfl

theorem drain_spec_aux : ∀ (n : Nat) (s : List Char), s.length ≤ n →
    ∀ t : List Char,
      (drain s).1 ++ sseSpec ((drain s).2 ++ t) = sseSpec (s ++ t) := by
  intro n
  induction n with
  | zero =>
      intro s hs t
      have h0 : s = [] := List.length_eq_zero.mp (Nat.le_zero.mp hs)
      subst h0
      rw [drain_unfold_none [] rfl]
      simp
  | succ n ih =>
      intro s hs t
      cases h : splitFirstNN s with
      | none =>
          rw [drain_unfold_none s h]
          simp
      | some p =>
          cases p with
          | mk f r =>
              have hshape := splitFirstNN_shape s f r h
              have hr : r.length ≤ n := by
                have hlen : s.length = f.length + (r.length + 2) := by
                  rw [hshape]; simp [List.length_append]
                omega
              rw [drain_unfold_some s f r h]
              calc (frameOut f ++ (drain r).1) ++ sseSpec ((drain r).2 ++ t)
                  = frameOut f ++ ((drain r).1 ++ sseSpec ((drain r).2 ++ t)) := by
                    rw [List.append_assoc]
                _ = frameOut f ++ sseSpec (r ++ t) := by rw [ih r hr t]
                _ = sseSpec f ++ sseSpec (r ++ t) := by rw [frameOut_eq_sseSpec]
                _ = sseSpec (f ++ '\n' :: '\n' :: (r ++ t)) :=
                    (sseSpec_split f (r ++ t)).symm
                _ = sseSpec (s ++ t) := by rw [hshape]; simp [List.append_assoc]

theorem drain_spec (s t : List Char) :
    (drain s).1 ++ sseSpec ((drain s).2 ++ t) = sseSpec (s ++ t) :=
  drain_spec_aux s.length s le_rfl t

theorem streamChunks_spec (cs : List (List Char)) : ∀ buf : List Char,
    streamChunks buf cs = sseSpec (buf ++ cs.join) := by
  induction cs with
  | nil =>
      intro buf
      simp [streamChunks, frameOut_eq_sseSpec]
  | cons c cs ih =>
      intro buf
      simp only [streamChunks]
      rw [ih (drain (buf ++ c)).2]
      rw [drain_spec (buf ++ c) cs.join]
      simp [List.join, List.append_assoc]

/-- C5: for every upstream byte sequence and every way of splitting it into
read chunks, the streaming parser's output is exactly the data-prefixed lines
of the input, each occurring once, in input order, re-terminated with one
blank line, and nothing else; the residual tail at end of stream is flushed
under the same rule.  Formally the chunked run equals the framing
specification of the concatenated input, which depends only on the
concatenation. -/
theorem c5_sse_framing (chunks : List (List Char)) :
    createStreamOutput chunks = sseSpec chunks.join := by
  unfold createStreamOutput
  simpa using streamChunks_spec chunks []

/-! ### Payload shaper lemmas -/

theorem assocGet_cons {α : Type} (kv : String × α) (l : List (String × α)) (k : String) :
    assocGet (kv :: l) k = if kv.1 = k then some kv.2 else assocGet l k := by
  by_cases h : kv.1 = k
  · simp [assocGet, List.find?, h]
  · simp [assocGet, List.find?, h]

theorem assocSet_cons_ne {α : Type} (kv : String × α) (l : List (String × α))
    (k : String) (v : α) (h : kv.1 ≠ k) :
    assocSet (kv :: l) k v = kv :: assocSet l k v := by
  unfold assocSet
  by_cases hl : l.any (fun kv' => kv'.1 = k) = true
  · rw [if_pos (by simp [List.any_cons, hl]), if_pos hl]
    simp [List.map_cons, h]
  · simp only [Bool.not_eq_true] at hl
    rw [if_neg (by simp [List.any_cons, hl, h]), if_neg (by simp [hl])]
    rfl

theorem assocSet_cons_eq {α : Type} (kv : String × α) (l : List (String × α))
    (k : String) (v : α) (h : kv.1 = k) :
    assocSet (kv :: l) k v
      = (k, v) :: l.map (fun kv' => if kv'.1 = k then (k, v) else kv') := by
  unfold assocSet
  rw [if_pos (by simp [List.any_cons, h])]
  simp [List.map_cons, h]

theorem assocGet_map_replace {α : Type} (l : List (String × α)) (k k' : String)
    (v : α) (h : k' ≠ k) :
    assocGet (l.map (fun kv => if kv.1 = k then (k, v) else kv)) k' = assocGet l k' := by
  induction l with
  | nil => rfl
  | cons kv l ih =>
      simp only [List.map_cons]
      by_cases hkv : kv.1 = k
      · rw [if_pos hkv, assocGet_cons, assocGet_cons]
        have h1 : ¬((k, v).1 = k') := by
          simp only []
          exact fun hh => h hh.symm
        have h2 : ¬(kv.1 = k') := by
          rw [hkv]
          exact fun hh => h hh.symm
        rw [if_neg h1, if_neg h2, ih]
      · rw [if_neg hkv, assocGet_cons, assocGet_cons]
        by_cases h2 : kv.1 = k'
        · rw [if_pos h2, if_pos h2]
        · rw [if_neg h2, if_neg h2, ih]

theorem assocGet_assocSet {α : Type} (l : List (String × α)) (k k' : String) (v : α) :
    assocGet (assocSet l k v) k' = if k' = k then some v else assocGet l k' := by
  induction l with
  | nil =>
      rw [show assocSet ([] : List (String × α)) k v = [(k, v)] from by simp [assocSet]]
      rw [assocGet_cons]
      by_cases h : k' = k
      · simp [h]
      · rw [if_neg h, if_neg (fun hh : (k, v).1 = k' => h (by simpa using hh.symm))]

  | cons kv l ih =>
      by_cases hkv : kv.1 = k
      · rw [assocSet_cons_eq kv l k v hkv, assocGet_cons]
        by_cases h : k' = k
        · simp [h]
        · have h1 : ¬((k, v).1 = k') := by
            simp only []
            exact fun hh => h hh.symm
          rw [if_neg h1, assocGet_map_replace l k k' v h, if_neg h, assocGet_cons]
          have h2 : ¬(kv.1 = k') := by
            rw [hkv]
            exact fun hh => h hh.symm
          rw [if_neg h2]
      · rw [assocSet_cons_ne kv l k v hkv, assocGet_cons, ih, assocGet_cons]
        by_cases h : k' = k
        · have h2 : ¬(kv.1 = k') := fun hh => hkv (hh.trans h)
          rw [if_pos h, if_neg h2, if_pos h]
        · rw [if_neg h, if_neg h]

theorem assocGet_foldl_assocSet_notin {α : Type} (l : List (String × α)) (k : String)
    (h : k ∉ l.map Prod.fst) :
    ∀ acc, assocGet (l.foldl (fun acc kv => assocSet acc kv.1 kv.2) acc) k
      = assocGet acc k := by
  induction l with
  | nil => intro acc; rfl
  | cons kv l ih =>
      intro acc
      simp only [List.foldl_cons]
      rw [ih (fun hm => h (List.mem_cons_of_mem _ hm)) _]
      rw [assocGet_assocSet]
      have hne : k ≠ kv.1 := by
        intro hEq
        exact h (by simp [hEq])
      rw [if_neg hne]

theorem mapped_keys {α β : Type} (g : α → β) (l : List (String × α)) :
    (l.map (fun kv => (kv.1, g kv.2))).map Prod.fst = l.map Prod.fst := by
  simp [List.map_map, Function.comp]

theorem assocGet_foldl_map {α β : Type} (g : α → β) :
    ∀ (l : List (String × α)) (k : String) (v : α),
      (l.map Prod.fst).Nodup → (k, v) ∈ l →
      ∀ acc : List (String × β),
        assocGet ((l.map (fun kv => (kv.1, g kv.2))).foldl
          (fun acc kv => assocSet acc kv.1 kv.2) acc) k = some (g v) := by
  intro l
  induction l with
  | nil => intro k v _ hmem acc; cases hmem
  | cons kv l ih =>
      intro k v hnd hmem acc
      simp only [List.map_cons, List.foldl_cons]
      rcases List.mem_cons.mp hmem with heq | hmem'
      · have hkv : kv = (k, v) := heq.symm
        subst hkv
        have hk : k ∉ l.map Prod.fst := (List.nodup_cons.mp hnd).1
        rw [assocGet_foldl_assocSet_notin _ k (by rw [mapped_keys]; exact hk) _]
        rw [assocGet_assocSet]
        simp
      · have hne : kv.1 ≠ k := by
          have h1 := (List.nodup_cons.mp hnd).1
          intro hEq
          have hk : k ∈ l.map Prod.fst := by
            have := List.mem_map_of_mem Prod.fst hmem'
            simpa using this
          exact h1 (hEq ▸ hk)
        exact ih k v (List.nodup_cons.mp hnd).2 hmem' _

theorem deleteKeys_obj (ks : List String) (kvs : List (String × JVal)) :
    deleteKeys ks (.obj kvs)
      = .obj ((kvs.filter (fun kv => !(ks.contains kv.1))).map
          (fun kv => (kv.1, deleteKeys ks kv.2))) := by
  rw [deleteKeys]
  rw [List.attach_map_val _ (fun kv => ((kv : String × JVal).1, deleteKeys ks kv.2))]

theorem addKeys_obj (adds : List (String × JVal)) (kvs : List (String × JVal)) :
    addKeys adds (.obj kvs)
      = .obj ((kvs.map (fun kv =>
          (kv.1, if kv.2.isComposite then addKeys adds kv.2 else kv.2))).foldl
            (fun acc kv => assocSet acc kv.1 kv.2)
            (adds.foldl (fun acc kv => assocSet acc kv.1 kv.2) [])) := by
  rw [addKeys]
  rw [List.attach_map_val _ (fun kv => ((kv : String × JVal).1,
    if kv.2.isComposite then addKeys adds kv.2 else kv.2))]

theorem renameKeys_obj (keyMap : List (String × String)) (kvs : List (String × JVal)) :
    renameKeys keyMap (.obj kvs)
      = .obj ((kvs.map (fun kv =>
          (renameApply keyMap kv.1, renameKeys keyMap kv.2))).foldl
            (fun acc kv => assocSet acc kv.1 kv.2) []) := by
  rw [renameKeys]
  rw [List.attach_map_val _ (fun kv => (renameApply keyMap (kv : String × JVal).1,
    renameKeys keyMap kv.2))]

theorem deleteKeys_num (ks : List String) (q : ℚ) : deleteKeys ks (.num q) = .num q := by
  rw [deleteKeys] <;> simp

theorem deleteKeys_str (ks : List String) (s : String) :
    deleteKeys ks (.str s) = .str s := by
  rw [deleteKeys] <;> simp

theorem renameKeys_num (m : List (String × String)) (q : ℚ) :
    renameKeys m (.num q) = .num q := by
  rw [renameKeys] <;> simp

theorem renameKeys_str (m : List (String × String)) (s : String) :
    renameKeys m (.str s) = .str s := by
  rw [renameKeys] <;> simp

/-- C6: the worked scenario — delete max_tokens, add new (without clobbering
anything present), rename existing to renamed — produces exactly the pairs
temperature 0.7, new v, renamed k (in the insertion order additions-first the
source produces), and in general an addition never overwrites an existing
key's value on an object node: the value stored under an existing key after
addKeys is the recursively processed original value, whatever the additions
say.  Mutation freedom of the source's apply wrappers (which deep-copy via a
JSON round-trip) is inherent in this functional embedding. -/
theorem c6_shaper_order_and_no_overwrite :
    shapePayload c6Request c6Cfg
        = .obj [("new", .str "v"), ("temperature", .num (7/10)), ("renamed", .str "k")]
      ∧ ∀ (adds kvs : List (String × JVal)) (k : String) (v : JVal),
          (kvs.map Prod.fst).Nodup → (k, v) ∈ kvs →
          assocGet (addKeys adds (.obj kvs)).entries k
            = some (if v.isComposite then addKeys adds v else v) := by
  constructor
  · show applyKeyRenames (applyKeyAdditions (applyKeyDeletions c6Request c6Cfg) c6Cfg) c6Cfg = _
    have h1 : applyKeyDeletions c6Request c6Cfg
        = .obj [("temperature", .num (7/10)), ("existing", .str "k")] := by
      show deleteKeys ["max_tokens"] c6Request = _
      rw [c6Request, deleteKeys_obj]
      simp [deleteKeys_num, deleteKeys_str]
    have h2 : applyKeyAdditions (.obj [("temperature", .num (7/10)), ("existing", .str "k")]) c6Cfg
        = .obj [("new", .str "v"), ("temperature", .num (7/10)), ("existing", .str "k")] := by
      show addKeys [("new", .str "v")] _ = _
      rw [addKeys_obj]
      simp [JVal.isComposite, assocSet]
    have h3 : applyKeyRenames
        (.obj [("new", .str "v"), ("temperature", .num (7/10)), ("existing", .str "k")]) c6Cfg
        = .obj [("new", .str "v"), ("temperature", .num (7/10)), ("renamed", .str "k")] := by
      show renameKeys [("existing", "renamed")] _ = _
      rw [renameKeys_obj]
      simp [renameApply, assocGet, List.find?, renameKeys_num, renameKeys_str, assocSet]
    rw [h1, h2, h3]
  · intro adds kvs k v hnd hmem
    rw [addKeys_obj]
    simp only [JVal.entries]
    exact assocGet_foldl_map
      (fun v => if JVal.isComposite v then addKeys adds v else v) kvs k v hnd hmem _

/-- Closed witness for C6's universally quantified clause at a concrete
object and addition map. -/
theorem c6_shaper_order_and_no_overwrite_witness :
    assocGet (addKeys [("existing", .str "clobber")]
        (.obj [("existing", .str "k")])).entries "existing"
      = some (if (JVal.str "k").isComposite
          then addKeys [("existing", .str "clobber")] (.str "k") else .str "k") :=
  c6_shaper_order_and_no_overwrite.2 [("existing", .str "clobber")]
    [("existing", .str "k")] "existing" (.str "k") (by simp) (by simp)

/-! ### Authentication theorems -/

/-- C7 (counterexample).  The claim says a request whose Authorization header
carries a valid Bearer token is authenticated even if it also carries an
x-api-key header with an invalid value.  The code gives the x-api-key header
precedence: with x-api-key bad and Authorization Bearer tok against a table
whose only value is tok, the extracted credential is bad and the request is
rejected with 401. -/
theorem c7_auth_counterexample :
    bearerFrom c7Headers = some "tok"
      ∧ (c7Tokens.map Prod.snd).contains "tok" = true
      ∧ requireClientAuth c7Headers c7Tokens = .error (401, authErrMsg) := by
  refine ⟨?_, rfl, rfl⟩
  rfl

/-- C7 (amended): with a non-empty token table, authentication accepts
exactly per x-api-key precedence — a present non-empty x-api-key is accepted
iff its value is in the table, the Authorization Bearer credential being
ignored; otherwise the request is accepted iff the lowercased Authorization
header starts with the bearer marker and its trimmed remainder is non-empty
and in the table — and every rejection carries status 401.  With an empty
token table every request is accepted. -/
theorem c7_auth_precedence (h : ReqHeaders) (tokens : List (String × String))
    (hne : tokens ≠ []) :
    requireClientAuth h tokens
        = (if acceptSpecAuth h tokens then .ok () else .error (401, authErrMsg))
      ∧ requireClientAuth h [] = .ok () := by
  have hemp : tokens.isEmpty = false := by
    cases tokens with
    | nil => exact absurd rfl hne
    | cons a l => rfl
  constructor
  · have hbearer : (match bearerFrom h with
        | none => (.error (401, authErrMsg) : Except (Nat × String) Unit)
        | some k =>
            if k = "" then .error (401, authErrMsg)
            else if validate_client_api_key tokens k then .ok ()
            else .error (401, authErrMsg))
        = (if acceptBearer h (tokens.map Prod.snd) then .ok ()
            else .error (401, authErrMsg)) := by
      cases hb : bearerFrom h with
      | none => simp [acceptBearer, hb]
      | some t =>
          by_cases ht : t = ""
          · simp [acceptBearer, hb, ht]
          · simp only [acceptBearer, hb, if_neg ht]
            simp only [validate_client_api_key, hemp, Bool.false_eq_true, if_false]
            have hd : (!decide (t = "")) = true := by
              simp [ht]
            rw [hd, Bool.true_and]
    unfold requireClientAuth acceptSpecAuth getClientBearer
    rw [hemp]
    cases hx : h.xApiKey with
    | none =>
        simpa using hbearer
    | some x =>
        by_cases hxe : x = ""
        · simpa [hxe] using hbearer
        · simp only [hxe, validate_client_api_key, hemp]
          by_cases hc : (tokens.map Prod.snd).contains x = true
          · simp [hxe, hc]
          · simp only [Bool.not_eq_true] at hc
            simp [hxe, hc]
  · rfl

/-- Closed witness for the amended C7 theorem: a valid bearer credential with
no x-api-key header is accepted. -/
theorem c7_auth_precedence_witness :
    requireClientAuth ⟨none, some "Bearer tok"⟩ c7Tokens
        = (if acceptSpecAuth ⟨none, some "Bearer tok"⟩ c7Tokens then .ok ()
            else .error (401, authErrMsg))
      ∧ requireClientAuth ⟨none, some "Bearer tok"⟩ [] = .ok () :=
  c7_auth_precedence ⟨none, some "Bearer tok"⟩ c7Tokens (by decide)

/-! ### Token counting theorems -/

theorem foldl_add_eq_sum {α : Type} (f : α → Nat) (l : List α) :
    ∀ n : Nat, l.foldl (fun acc x => acc + f x) n = n + (l.map f).sum := by
  induction l with
  | nil => intro n; simp
  | cons a l ih =>
      intro n
      simp only [List.foldl_cons, List.map_cons, List.sum_cons, ih]
      omega

theorem sum_map_ite {α : Type} (g : α → Bool) (f : α → Nat) (l : List α) :
    (l.map (fun x => if g x then f x else 0)).sum = ((l.filter g).map f).sum := by
  induction l with
  | nil => rfl
  | cons a l ih =>
      by_cases hg : g a = true
      · simp [List.filter_cons, hg, ih]
      · simp only [Bool.not_eq_true] at hg
        simp [List.filter_cons, hg, ih]

theorem msg_tokens_eq (e : String → Nat) (m : TMsg) :
    (match m.content with
      | none => 0
      | some (.str s) => if s = "" then 0 else e s
      | some (.blocks bs) =>
          bs.foldl (fun a b =>
            a + (if b.btype = "text" && !(b.text = "") then e b.text else 0)) 0)
      = (m.texts.map e).sum := by
  cases m with
  | mk content =>
      cases content with
      | none => rfl
      | some c =>
          cases c with
          | str s =>
              by_cases hs : s = ""
              · simp [TMsg.texts, hs]
              · simp [TMsg.texts, hs]
          | blocks bs =>
              simp only [TMsg.texts]
              rw [foldl_add_eq_sum (fun b =>
                if b.btype = "text" && !(b.text = "") then e b.text else 0) bs 0]
              rw [Nat.zero_add]
              rw [sum_map_ite (fun b => b.btype = "text" && !(b.text = ""))
                (fun b => e b.text) bs]
              rw [List.map_map]
              rfl

/-- C8 (counterexample).  The claim says the endpoint computes the section
4.2 estimate, which charges 85 tokens for an image block and 4 tokens per
message; the endpoint computes via countTokensFast, which counts only text
content, so one message consisting of one image block yields input_tokens 0
while the claimed estimate is 89. -/
theorem c8_count_tokens_counterexample :
    countTokensHandler (some String.length) .absent c8ImageMsgs = 0
      ∧ spec42Estimate (some String.length) .absent c8ImageMsgs = 89
      ∧ (0 : Nat) ≠ 89 := by
  refine ⟨rfl, rfl, by decide⟩

/-- C8 (amended): the endpoint returns input_tokens equal to the encoder
count of the system text plus the encoder counts of the messages' string
contents and text blocks — image blocks contribute nothing and no
per-message overhead is added — and when no encoder is available the system
part and the messages part fall back independently to max 1 of their
character counts over four. -/
theorem c8_count_tokens_text_only (enc : Option (String → Nat))
    (system : SysField) (messages : List TMsg) :
    countTokensHandler enc system messages = amendedCountSpec enc system messages := by
  cases enc with
  | some e =>
      unfold countTokensHandler amendedCountSpec countTokensFastMsgs countTokensFastText
      simp only []
      have hmsgs : messages.foldl (fun acc m =>
          acc + (match m.content with
            | none => 0
            | some (.str s) => if s = "" then 0 else e s
            | some (.blocks bs) =>
                bs.foldl (fun a b =>
                  a + (if b.btype = "text" && !(b.text = "") then e b.text else 0)) 0)) 0
          = (messages.map (fun m => (m.texts.map e).sum)).sum := by
        rw [foldl_add_eq_sum (fun m => match m.content with
          | none => 0
          | some (.str s) => if s = "" then 0 else e s
          | some (.blocks bs) =>
              bs.foldl (fun a b =>
                a + (if b.btype = "text" && !(b.text = "") then e b.text else 0)) 0)
          messages 0]
        rw [Nat.zero_add]
        congr 1
        apply List.map_congr_left
        intro m _
        exact msg_tokens_eq e m
      rw [hmsgs]
      cases system with
      | absent => rfl
      | str s =>
          by_cases hs : s = ""
          · simp [hs]
          · simp [hs]
      | blocks bs => rfl
  | none =>
      unfold countTokensHandler amendedCountSpec countTokensFastMsgs countTokensFastText
      simp only []
      have hmsgs : messages.foldl (fun acc m =>
          acc + (match m.content with
            | none => 0
            | some (.str s) => if s = "" then 0 else s.length
            | some (.blocks bs) =>
                bs.foldl (fun a b =>
                  a + (if b.btype = "text" && !(b.text = "") then b.text.length else 0)) 0)) 0
          = (messages.map (fun m => (m.texts.map String.length).sum)).sum := by
        rw [foldl_add_eq_sum (fun m => match m.content with
          | none => 0
          | some (.str s) => if s = "" then 0 else s.length
          | some (.blocks bs) =>
              bs.foldl (fun a b =>
                a + (if b.btype = "text" && !(b.text = "") then b.text.length else 0)) 0)
          messages 0]
        rw [Nat.zero_add]
        congr 1
        apply List.map_congr_left
        intro m _
        exact msg_tokens_eq String.length m
      rw [hmsgs]
      cases system with
      | absent => rfl
      | str s =>
          by_cases hs : s = ""
          · simp [hs]
          · simp [hs]
      | blocks bs => rfl

/-- Closed witness for the amended C8 theorem on the image-only message
list. -/
theorem c8_count_tokens_text_only_witness :
    countTokensHandler (some String.length) (.str "sys") c8ImageMsgs
      = amendedCountSpec (some String.length) (.str "sys") c8ImageMsgs :=
  c8_count_tokens_text_only (some String.length) (.str "sys") c8ImageMsgs

/-! ### Message translation theorems -/

/-- C9: in the Anthropic-to-internal translation, a user message whose
content array holds a tool_result block is emitted as a user message with
empty string content — its tool_result and text blocks all discarded —
whenever it is first in the sequence or follows any non-assistant message,
and such a message is expanded into tool-role messages exactly when it
directly follows an assistant message. -/
theorem c9_orphan_tool_result :
    (∀ m : CMsg, isToolResultUser m = true →
        convert_claude_to_openai_user_or_toolresult m = emptyUserMsg)
      ∧ (∀ (m : CMsg) (rest : List CMsg), isToolResultUser m = true →
          convertClaudeMessages (m :: rest)
            = emptyUserMsg :: convertClaudeMessages rest)
      ∧ (∀ (x m : CMsg) (rest : List CMsg), x.role ≠ "assistant" →
          isToolResultUser m = true →
          convertClaudeMessages (x :: m :: rest)
            = convertClaudeMessages [x] ++ (emptyUserMsg :: convertClaudeMessages rest))
      ∧ (∀ (a m : CMsg) (rest : List CMsg), a.role = "assistant" →
          isToolResultUser m = true →
          convertClaudeMessages (a :: m :: rest)
            = convert_claude_assistant_message a ::
                (convert_claude_tool_results m ++ convertClaudeMessages rest)) := by
  have h1 : ∀ m : CMsg, isToolResultUser m = true →
      convert_claude_to_openai_user_or_toolresult m = emptyUserMsg := by
    intro m hm
    unfold convert_claude_to_openai_user_or_toolresult
    rw [if_pos hm]
    rfl
  have hrole : ∀ m : CMsg, isToolResultUser m = true → m.role = "user" := by
    intro m hm
    unfold isToolResultUser at hm
    exact of_decide_eq_true ((Bool.and_eq_true _ _).mp hm).1
  have h2 : ∀ (m : CMsg) (rest : List CMsg), isToolResultUser m = true →
      convertClaudeMessages (m :: rest)
        = emptyUserMsg :: convertClaudeMessages rest := by
    intro m rest hm
    cases rest with
    | nil =>
        show convertClaudeMessages [m] = emptyUserMsg :: convertClaudeMessages []
        simp only [convertClaudeMessages]
        rw [if_pos (hrole m hm), h1 m hm]
    | cons b l =>
        simp only [convertClaudeMessages]
        rw [if_pos (hrole m hm), h1 m hm]
  have h3 : ∀ (x m : CMsg) (rest : List CMsg), x.role ≠ "assistant" →
      isToolResultUser m = true →
      convertClaudeMessages (x :: m :: rest)
        = convertClaudeMessages [x] ++ (emptyUserMsg :: convertClaudeMessages rest) := by
    intro x m rest hx hm
    by_cases hxu : x.role = "user"
    · simp only [convertClaudeMessages]
      rw [if_pos hxu, h2 m rest hm]
      simp [convertClaudeMessages, hxu]
    · simp only [convertClaudeMessages]
      rw [if_neg hxu, if_neg hx, h2 m rest hm]
      simp [convertClaudeMessages, hxu, hx]
  have h4 : ∀ (a m : CMsg) (rest : List CMsg), a.role = "assistant" →
      isToolResultUser m = true →
      convertClaudeMessages (a :: m :: rest)
        = convert_claude_assistant_message a ::
            (convert_claude_tool_results m ++ convertClaudeMessages rest) := by
    intro a m rest ha hm
    have hau : ¬(a.role = "user") := by
      rw [ha]
      decide
    simp only [convertClaudeMessages]
    rw [if_neg hau, if_pos ha, if_pos hm]
  exact ⟨h1, h2, h3, h4⟩

/-- Closed witness for C9 at a tool-result user message that also carries a
text block, placed first, after a plain user message, and after an assistant
message. -/
theorem c9_orphan_tool_result_witness :
    convert_claude_to_openai_user_or_toolresult c9TRMsg = emptyUserMsg
      ∧ convertClaudeMessages (c9TRMsg :: [])
          = emptyUserMsg :: convertClaudeMessages []
      ∧ convertClaudeMessages (c9UserMsg :: c9TRMsg :: [])
          = convertClaudeMessages [c9UserMsg]
              ++ (emptyUserMsg :: convertClaudeMessages [])
      ∧ convertClaudeMessages (c9AsstMsg :: c9TRMsg :: [])
          = convert_claude_assistant_message c9AsstMsg ::
              (convert_claude_tool_results c9TRMsg ++ convertClaudeMessages []) :=
  ⟨c9_orphan_tool_result.1 c9TRMsg (by decide),
   c9_orphan_tool_result.2.1 c9TRMsg [] (by decide),
   c9_orphan_tool_result.2.2.1 c9UserMsg c9TRMsg [] (by decide) (by decide),
   c9_orphan_tool_result.2.2.2 c9AsstMsg c9TRMsg [] rfl (by decide)⟩

/-! ### Response translation theorems -/

/-- C10: the response translator fails with a 500 error whenever its input
has no content to translate — an empty or absent choices array on a
chat-completions response raises the no-choices error, an empty or absent
output array on a Responses-shaped payload raises the no-output error — and
no Anthropic response object is produced in either case. -/
theorem c10_empty_upstream_errors (parseJson : String → Option JVal)
    (freshId : String) (resp : OAResponse) (origToolNames : List String)
    (origModel : Option String) :
    (resp.object ≠ some "response" → resp.choices = [] →
        convert_openai_to_claude_response parseJson freshId resp origToolNames origModel
          = .error (500, "No choices in OpenAI response"))
      ∧ (resp.object = some "response" → resp.output = [] →
          convert_openai_to_claude_response parseJson freshId resp origToolNames origModel
            = .error (500, "No output in OpenAI Responses API response")) := by
  constructor
  · intro hobj hch
    unfold convert_openai_to_claude_response
    rw [if_neg hobj, hch]
  · intro hobj hout
    unfold convert_openai_to_claude_response convert_openai_responses_to_claude_response
    rw [if_pos hobj]
    simp [hout]

/-- Closed witness for C10 at an empty chat-completions response and an empty
Responses-shaped response. -/
theorem c10_empty_upstream_errors_witness :
    convert_openai_to_claude_response (fun _ => none) "u" c10EmptyChat [] none
        = .error (500, "No choices in OpenAI response")
      ∧ convert_openai_to_claude_response (fun _ => none) "u" c10EmptyResponses [] none
          = .error (500, "No output in OpenAI Responses API response") :=
  ⟨(c10_empty_upstream_errors (fun _ => none) "u" c10EmptyChat [] none).1
      (by decide) rfl,
   (c10_empty_upstream_errors (fun _ => none) "u" c10EmptyResponses [] none).2
      rfl rfl⟩

end LLMux
